import Mathlib

set_option maxRecDepth 65536

/-!
Shallow embedding of the yt-search repository's extraction/normalization
pipeline, and proofs about the claims of its specification.

The embedding covers the three variants the claims cite:
* `yt_search/search.py` (`YouTubeSearcher`) — namespace `YtSearch`;
* `youtube_search_enhanced.py` — namespace `Enhanced`;
* `youtube_search_fixed.py` — namespace `Fixed`.

Python strings are modelled as `List Char`; Python exceptions as an
explicit error type `PyErr` threaded through `Except`/explicit results.
CPython `float` is modelled faithfully as IEEE-754 binary64: a parsed
literal is kept as the exact integer pair `(num, den)` it denotes (`den`
a power of ten), and `int(float(p) * m)` (`truncMul`) rounds `num / den`
to the nearest double (ties to even, subnormal clamp included),
multiplies by the exactly-representable integer `m` with one more
rounding, and truncates toward zero — so e.g. `"32.3"` times 1000 gives
32299, as CPython does, not the exact-decimal 32300.  `float`'s exponent
forms, `inf`/`nan` (including overflow of 300+-digit literals to `inf`),
underscores and surrounding whitespace are outside the model, as are
`int()`'s whitespace/underscore allowances.
-/

/-- Python exception kinds distinguished by the sources' handlers:
`except KeyError` is caught separately from the catch-all
`except Exception`; `ValueError` is what `float()`/`int()` raise. -/
inductive PyErr where
  | keyError : PyErr
  | valueError : PyErr
  | otherError : PyErr
deriving Repr, DecidableEq

deriving instance DecidableEq for Except

/-! ## Python string primitives over `List Char` -/

/-- Whitespace stripped by Python `str.strip()`. -/
def pySpace (c : Char) : Bool :=
  c = ' ' || c = '\t' || c = '\n' || c = '\r' || c = '\x0b' || c = '\x0c'

/-- Python `str.strip()`. -/
def pyStrip (s : List Char) : List Char :=
  (((s.dropWhile pySpace).reverse).dropWhile pySpace).reverse

/-- Python `str.lower()` (ASCII fragment, as used on ASCII keyword sets). -/
def pyLower (s : List Char) : List Char := s.map Char.toLower

/-- Python `pat in s` (substring containment). -/
def listContains : List Char → List Char → Bool
  | [], pat => pat.isEmpty
  | c :: t, pat => pat.isPrefixOf (c :: t) || listContains t pat

/-- Worker for `pyReplace`; the fuel is initialized to the string length,
which bounds the number of steps (each step consumes at least one char). -/
def replaceGo (pat rep : List Char) : Nat → List Char → List Char
  | _, [] => []
  | 0, s => s
  | fuel + 1, c :: t =>
    if pat.isPrefixOf (c :: t) then rep ++ replaceGo pat rep fuel (t.drop (pat.length - 1))
    else c :: replaceGo pat rep fuel t

/-- Python `s.replace(pat, rep)`: replaces every (leftmost, non-overlapping)
occurrence.  The sources never call it with an empty pattern, for which
Python would interleave `rep` between characters; we return `s` there. -/
def pyReplace (s pat rep : List Char) : List Char :=
  if pat.isEmpty then s else replaceGo pat rep s.length s

/-- Numeric value of a digit string. -/
def natListVal (s : List Char) : Nat := s.foldl (fun a c => 10 * a + (c.toNat - 48)) 0

/-- Optional leading sign of a numeric literal: the sign value and the
remaining characters. -/
def stripSign (s : List Char) : Int × List Char :=
  match s with
  | [] => (1, [])
  | c :: r => if c = '-' then (-1, r) else if c = '+' then (1, r) else (1, c :: r)

/-- Model of CPython `float(s)` on plain decimal literals: optional sign,
integer digits, optional `.` and fraction digits (at least one digit in
all).  Returns `(num, den)` with value `num / den`, `den` a power of 10;
`none` models the `ValueError` raise. -/
def pyFloat? (s : List Char) : Option (Int × Nat) :=
  let sg := (stripSign s).1
  let t := (stripSign s).2
  let ip := t.takeWhile Char.isDigit
  match t.drop ip.length with
  | [] => if ip.isEmpty then none else some (sg * (natListVal ip : Int), 1)
  | '.' :: frac =>
    if frac.all Char.isDigit && !(ip.isEmpty && frac.isEmpty) then
      some (sg * ((natListVal ip * 10 ^ frac.length + natListVal frac : Nat) : Int), 10 ^ frac.length)
    else none
  | _ => none

/-- Model of CPython `int(s)`: optional sign then digits; `none` models the
`ValueError` raise. -/
def pyInt? (s : List Char) : Option Int :=
  let sg := (stripSign s).1
  let t := (stripSign s).2
  if !t.isEmpty && t.all Char.isDigit then some (sg * (natListVal t : Int)) else none

/-- Floor of the base-2 logarithm; structural worker (the fuel only bounds
the ~log n halving steps). -/
def natLog2Go : Nat → Nat → Nat
  | 0, _ => 0
  | fuel + 1, n => if n ≤ 1 then 0 else natLog2Go fuel (n / 2) + 1

def natLog2 (n : Nat) : Nat := natLog2Go n n

/-- `floor (log2 (a / b))` for `a, b ≥ 1`: candidate `log2 a - log2 b`,
corrected down by one when `a / b` falls short of it. -/
def ratLog2 (a b : Nat) : Int :=
  let la := natLog2 a
  let lb := natLog2 b
  if b * 2 ^ la ≤ a * 2 ^ lb then (la : Int) - lb else (la : Int) - lb - 1

/-- Round the positive rational `a / b` to the nearest IEEE-754 binary64
value (ties to even), returned as `(m, e)` with value `m * 2 ^ e`:
`e = max (floor (log2 (a/b)) - 52) (-1074)` is the ulp exponent (the
lower clamp giving subnormals), `m` the rounded scaled significand. -/
def roundPosRatToDbl (a b : Nat) : Int × Int :=
  let E := ratLog2 a b
  let e : Int := max (E - 52) (-1074)
  let N : Nat := if 0 ≤ e then a else a * 2 ^ (-e).toNat
  let D : Nat := if 0 ≤ e then b * 2 ^ e.toNat else b
  let q := N / D
  let r := N % D
  let m : Nat :=
    if 2 * r < D then q
    else if D < 2 * r then q + 1
    else if q % 2 = 0 then q else q + 1
  if m = 2 ^ 53 then ((2 ^ 52 : Nat), e + 1) else ((m : Int), e)

/-- Round `n / d` to the nearest binary64 value (sign-symmetric). -/
def roundRatToDbl (n : Int) (d : Nat) : Int × Int :=
  if n = 0 then (0, 0)
  else if 0 ≤ n then roundPosRatToDbl n.toNat d
  else
    let p := roundPosRatToDbl (-n).toNat d
    (-p.1, p.2)

/-- `int(float(p) * mult)` for a parsed decimal `p = n / den`, in CPython
semantics: round `n / den` to the nearest binary64 double, multiply by
`mult` (an integer below `2 ^ 53`, hence exactly representable; the
product is the exact product rounded to nearest-even again), then
truncate toward zero.  Magnitudes at or beyond `2 ^ 1024`, where CPython
produces `inf` and `int()` then raises `OverflowError`, are outside the
model (they would need a view-count text of 300+ digits). -/
def truncMul (n : Int) (den : Nat) (mult : Int) : Int :=
  let f := roundRatToDbl n den
  let num : Int := if 0 ≤ f.2 then f.1 * mult * 2 ^ f.2.toNat else f.1 * mult
  let dnm : Nat := if 0 ≤ f.2 then 1 else 2 ^ (-f.2).toNat
  let p := roundRatToDbl num dnm
  if 0 ≤ p.2 then p.1 * 2 ^ p.2.toNat else Int.tdiv p.1 ((2 : Int) ^ (-p.2).toNat)

/-! ## View-count normalizers (one per variant) -/

namespace YtSearch

/-- Cleaning step of `YouTubeSearcher._parse_view_count` (search.py:117):
`views_str.replace(',', '').replace(' views', '').strip()`. -/
def cleanViews (s : List Char) : List Char :=
  pyStrip (pyReplace (pyReplace s ",".data [] ) " views".data [])

/-- `YouTubeSearcher._parse_view_count` (search.py:112-127).  Checks `'M'`
then `'K'` by containment; no `'B'` branch.  The `float()` calls sit
outside the `try`, so their `ValueError` propagates out of the function
(to be caught by `search`'s catch-all handler); only the final `int()`
is guarded by the bare `except`, which yields `0`. -/
def parse_view_count (s : List Char) : Except PyErr Int :=
  if s.isEmpty then .ok 0
  else
    let v := cleanViews s
    if listContains v "M".data then
      match pyFloat? (pyReplace v "M".data []) with
      | some (n, d) => .ok (truncMul n d 1000000)
      | none => .error .valueError
    else if listContains v "K".data then
      match pyFloat? (pyReplace v "K".data []) with
      | some (n, d) => .ok (truncMul n d 1000)
      | none => .error .valueError
    else
      match pyInt? v with
      | some n => .ok n
      | none => .ok 0

end YtSearch

namespace Enhanced

/-- Cleaning steps of `parse_view_count_advanced`
(youtube_search_enhanced.py:268-272): strip commas, `' views'` and
`'watching'`, then the (mostly vacuous) lowercase `'watching'` re-check. -/
def cleanViews (s : List Char) : List Char :=
  let v := pyStrip (pyReplace (pyReplace (pyReplace s ",".data []) " views".data []) "watching".data [])
  if listContains (pyLower v) "watching".data then pyStrip (pyReplace v "watching".data []) else v

/-- `parse_view_count_advanced` (youtube_search_enhanced.py:262-293).
Suffixes are tried in dict insertion order `K`, `M`, `B`, each by
containment; every `float`/`int` call is inside `try/except ValueError`,
so the function never raises: total `List Char → Int`. -/
def parse_view_count_advanced (s : List Char) : Int :=
  if s.isEmpty then 0
  else
    let v := cleanViews s
    if listContains v "K".data then
      match pyFloat? (pyStrip (pyReplace v "K".data [])) with
      | some (n, d) => truncMul n d 1000
      | none => 0
    else if listContains v "M".data then
      match pyFloat? (pyStrip (pyReplace v "M".data [])) with
      | some (n, d) => truncMul n d 1000000
      | none => 0
    else if listContains v "B".data then
      match pyFloat? (pyStrip (pyReplace v "B".data [])) with
      | some (n, d) => truncMul n d 1000000000
      | none => 0
    else
      match pyInt? v with
      | some n => n
      | none => 0

end Enhanced

namespace Fixed

/-- Cleaning step of `parse_view_count` (youtube_search_fixed.py:137). -/
def cleanViews (s : List Char) : List Char :=
  pyStrip (pyReplace (pyReplace (pyReplace s ",".data []) " views".data []) "watching".data [])

/-- `parse_view_count` (youtube_search_fixed.py:131-148): like the
`YtSearch` normalizer (`M` then `K`, no `B`, `float` un-guarded) but the
cleaning also removes `'watching'`. -/
def parse_view_count (s : List Char) : Except PyErr Int :=
  if s.isEmpty then .ok 0
  else
    let v := cleanViews s
    if listContains v "M".data then
      match pyFloat? (pyReplace v "M".data []) with
      | some (n, d) => .ok (truncMul n d 1000000)
      | none => .error .valueError
    else if listContains v "K".data then
      match pyFloat? (pyReplace v "K".data []) with
      | some (n, d) => .ok (truncMul n d 1000)
      | none => .error .valueError
    else
      match pyInt? v with
      | some n => .ok n
      | none => .ok 0

end Fixed

/-! ## Parsed documents: `json.loads` output and Python access semantics

A parsed document is a JSON-like value.  `obj` models a `dict` (keys
unique, as `json.loads` produces); `int` covers JSON numbers as far as
the walk needs them. -/

inductive Json where
  | null : Json
  | bool (b : Bool) : Json
  | str (s : String) : Json
  | int (n : Int) : Json
  | arr (xs : List Json) : Json
  | obj (fields : List (String × Json)) : Json
deriving Repr, Inhabited

mutual

def Json.beq : Json → Json → Bool
  | .null, .null => true
  | .bool a, .bool b => a == b
  | .str a, .str b => a == b
  | .int a, .int b => a == b
  | .arr xs, .arr ys => Json.beqList xs ys
  | .obj fs, .obj gs => Json.beqFields fs gs
  | _, _ => false

def Json.beqList : List Json → List Json → Bool
  | [], [] => true
  | x :: xs, y :: ys => Json.beq x y && Json.beqList xs ys
  | _, _ => false

def Json.beqFields : List (String × Json) → List (String × Json) → Bool
  | [], [] => true
  | (k, v) :: fs, (l, w) :: gs => k == l && Json.beq v w && Json.beqFields fs gs
  | _, _ => false

end

instance : BEq Json := ⟨Json.beq⟩

/-- Python `d[k]` on a string key: value for dicts that have the key,
`KeyError` for dicts that lack it, `TypeError` on anything else. -/
def Json.getItem (j : Json) (k : String) : Except PyErr Json :=
  match j with
  | .obj fields =>
    match fields.lookup k with
    | some v => .ok v
    | none => .error .keyError
  | _ => .error .otherError

/-- Python `k in j` for a string `k`: key test on dicts, membership on
lists, substring test on strings, `TypeError` otherwise. -/
def Json.hasKey (j : Json) (k : String) : Except PyErr Bool :=
  match j with
  | .obj fields => .ok (fields.any (fun p => p.1 == k))
  | .arr xs => .ok (xs.any (fun x => Json.beq x (.str k)))
  | .str s => .ok (listContains s.data k.data)
  | _ => .error .otherError

/-- Python `d.get(k, default)`: only dicts have `.get`; anything else
raises `AttributeError`. -/
def Json.getd (j : Json) (k : String) (d : Json) : Except PyErr Json :=
  match j with
  | .obj fields => .ok ((fields.lookup k).getD d)
  | _ => .error .otherError

/-- Python `x[0]`: head for non-empty lists (`IndexError` when empty),
first character for non-empty strings, `KeyError` for dicts (string-keyed
here, so integer lookup misses), `TypeError` otherwise. -/
def Json.item0 (j : Json) : Except PyErr Json :=
  match j with
  | .arr (x :: _) => .ok x
  | .arr [] => .error .otherError
  | .str s =>
    match s.data with
    | [] => .error .otherError
    | c :: _ => .ok (.str (String.mk [c]))
  | .obj _ => .error .keyError
  | _ => .error .otherError

/-- Python `for x in j`: lists iterate elements, dicts iterate keys,
strings iterate 1-character strings, the rest raise `TypeError`. -/
def Json.asList (j : Json) : Except PyErr (List Json) :=
  match j with
  | .arr xs => .ok xs
  | .obj fields => .ok (fields.map (fun p => .str p.1))
  | .str s => .ok (s.data.map (fun c => .str (String.mk [c])))
  | _ => .error .otherError

/-- Python truthiness (`if not x`), as far as JSON-shaped values go. -/
def Json.falsy (j : Json) : Bool :=
  match j with
  | .null => true
  | .bool b => !b
  | .int n => n == 0
  | .str s => s.isEmpty
  | .arr xs => xs.isEmpty
  | .obj fields => fields.isEmpty

/-- Rendering of a value interpolated into an f-string (`f"...{video_id}"`).
Scalars render as CPython would; the nested cases approximate `repr` and
never arise on the documents the claims quantify over. -/
def Json.fstr (j : Json) : String :=
  match j with
  | .null => "None"
  | .bool true => "True"
  | .bool false => "False"
  | .str s => s
  | .int n => toString n
  | .arr _ => "[...]"
  | .obj _ => "\x7b...\x7d"

/-! ## Query-intent analyzer (enhanced variant) -/

namespace Enhanced

/-- The filter dict built by `SearchEnhancer.parse_search_intent`
(youtube_search_enhanced.py:100-147); one optional field per key the
source may set. -/
structure Filters where
  type : Option String := none
  duration : Option String := none
  upload_date : Option String := none
  sort : Option String := none
  year : Option String := none
deriving Repr, DecidableEq

def tutorial_keywords : List (List Char) :=
  ["tutorial".data, "how to".data, "learn".data, "beginner".data, "course".data,
   "guide".data, "explained".data]

def music_keywords : List (List Char) :=
  ["music".data, "song".data, "album".data, "lyrics".data, "official video".data,
   "audio".data]

def recency_keywords : List (List Char) :=
  ["latest".data, "new".data, "2024".data, "2025".data, "recent".data, "today".data]

/-- A character the regex `\b` boundary counts as a word character. -/
def isWordChar (c : Char) : Bool := c.isAlphanum || c = '_'

def boundaryOk (prev : Option Char) : Bool :=
  match prev with
  | none => true
  | some c => !isWordChar c

def afterOk (rest : List Char) : Bool :=
  match rest with
  | [] => true
  | c :: _ => !isWordChar c

/-- One attempted match of `202[0-9]\b` at the current position. -/
def yearHere (prev : Option Char) (c : Char) (t : List Char) : Option (List Char) :=
  match c, t with
  | '2', '0' :: '2' :: d :: rest =>
    if d.isDigit && boundaryOk prev && afterOk rest then some ['2', '0', '2', d] else none
  | _, _ => none

/-- Model of `re.search(r'\b(202[0-9])\b', query)` used for the year hint
(youtube_search_enhanced.py:137): leftmost boundary-delimited `202x`. -/
def findYear (prev : Option Char) : List Char → Option (List Char)
  | [] => none
  | c :: t =>
    match yearHere prev c t with
    | some y => some y
    | none => findYear (some c) t

/-- `SearchEnhancer.parse_search_intent` (youtube_search_enhanced.py:100-147).
All keyword tests run on the lower-cased query; the year regex runs on the
raw query.  The duration preference at the end is an `if / elif`:
`short`/`quick` wins over `full`/`complete` when both occur. -/
def parse_search_intent (query : List Char) : Filters :=
  let clean_query := pyLower query
  let f : Filters := {}
  let f := if tutorial_keywords.any (fun k => listContains clean_query k) then
      { f with type := some "educational", duration := some "medium" } else f
  let f := if music_keywords.any (fun k => listContains clean_query k) then
      { f with type := some "music" } else f
  let f := if recency_keywords.any (fun k => listContains clean_query k) then
      { f with upload_date := some "month", sort := some "date" } else f
  let f := if listContains clean_query "best".data || listContains clean_query "top".data then
      { f with sort := some "views" } else f
  let f := match findYear none query with
    | some y => { f with year := some (String.mk y) }
    | none => f
  if listContains clean_query "short".data || listContains clean_query "quick".data then
    { f with duration := some "short" }
  else if listContains clean_query "full".data || listContains clean_query "complete".data then
    { f with duration := some "long" }
  else f

end Enhanced

/-! ## Normalizers applied to raw document leaves

The sources call the normalizer on whatever `dict.get` returned.  The
leading `if not views_str: return 0` accepts any falsy value; a truthy
non-string then raises `AttributeError` at `.replace`. -/

def YtSearch.parse_view_count_val (j : Json) : Except PyErr Int :=
  match j with
  | .str s => YtSearch.parse_view_count s.data
  | j => if j.falsy then .ok 0 else .error .otherError

def Enhanced.parse_view_count_advanced_val (j : Json) : Except PyErr Int :=
  match j with
  | .str s => .ok (Enhanced.parse_view_count_advanced s.data)
  | j => if j.falsy then .ok 0 else .error .otherError

def Fixed.parse_view_count_val (j : Json) : Except PyErr Int :=
  match j with
  | .str s => Fixed.parse_view_count s.data
  | j => if j.falsy then .ok 0 else .error .otherError

/-! ## Per-video parsing -/

/-- The owner-badge scan shared verbatim by `YouTubeSearcher._parse_video`
(search.py:89-93) and `search_youtube_direct` (youtube_search_fixed.py:94-98):
any badge whose `metadataBadgeRenderer.style` is the verified marker sets
the flag (then `break`); other badges are skipped. -/
def badgeLoop : List Json → Except PyErr Bool
  | [] => .ok false
  | b :: rest => do
    let h ← b.hasKey "metadataBadgeRenderer"
    if h then do
      let m ← b.getItem "metadataBadgeRenderer"
      let st ← m.getd "style" .null
      if Json.beq st (.str "BADGE_STYLE_TYPE_VERIFIED") then pure true
      else badgeLoop rest
    else badgeLoop rest

namespace YtSearch

/-- The result dict built by `YouTubeSearcher._parse_video`
(search.py:99-110).  Leaf fields hold the raw document values, as the
Python dict does; the URLs are f-string products. -/
structure Video where
  id : Json
  title : Json
  duration : Json
  views : Int
  views_text : Json
  channel : Json
  channel_verified : Bool
  age : Json
  url : String
  full_url : String

/-- `YouTubeSearcher._parse_video` (search.py:72-110). -/
def parse_video (video : Json) : Except PyErr Video := do
  let video_id ← video.getd "videoId" (.str "")
  let t ← video.getd "title" (.obj [])
  let runs ← t.getd "runs" (.arr [.obj []])
  let r0 ← runs.item0
  let title ← r0.getd "text" (.str "Unknown")
  let vct ← video.getd "viewCountText" (.obj [])
  let view_text ← vct.getd "simpleText" (.str "")
  let views ← parse_view_count_val view_text
  let ot ← video.getd "ownerText" (.obj [])
  let oruns ← ot.getd "runs" (.arr [.obj []])
  let o0 ← oruns.item0
  let channel ← o0.getd "text" (.str "Unknown")
  let hasBadges ← video.hasKey "ownerBadges"
  let channel_verified ←
    if hasBadges then do
      let badges ← video.getd "ownerBadges" (.arr [])
      let bl ← badges.asList
      badgeLoop bl
    else pure false
  let lt ← video.getd "lengthText" (.obj [])
  let duration ← lt.getd "simpleText" (.str "")
  let pt ← video.getd "publishedTimeText" (.obj [])
  let age ← pt.getd "simpleText" (.str "")
  pure {
    id := video_id, title := title, duration := duration, views := views,
    views_text := view_text, channel := channel,
    channel_verified := channel_verified, age := age,
    url := "youtu.be/" ++ video_id.fstr,
    full_url := "https://youtube.com/watch?v=" ++ video_id.fstr }

end YtSearch

/-- `''.join(run.get('text', '') for run in runs)`: joining raises
`TypeError` if some `text` is not a string. -/
def joinRunTexts : List Json → Except PyErr String
  | [] => .ok ""
  | r :: rest => do
    let t ← r.getd "text" (.str "")
    match t with
    | .str s => do
      let tl ← joinRunTexts rest
      pure (s ++ tl)
    | _ => .error .otherError

namespace Enhanced

/-- The result dict built inline by `search_youtube_advanced`
(youtube_search_enhanced.py:233-245). -/
structure Video where
  id : Json
  title : Json
  duration : Json
  views : Int
  views_text : Json
  channel : Json
  channel_verified : Bool
  age : Json
  description : String
  url : String
  short_url : String

/-- The per-entry field extraction of `search_youtube_advanced`
(youtube_search_enhanced.py:209-245), factored out of the loop body.
Note line 218: only the FIRST entry of `ownerBadges` is examined for the
verified badge. -/
def parse_video (video : Json) : Except PyErr Video := do
  let video_id ← video.getd "videoId" (.str "")
  let t ← video.getd "title" (.obj [])
  let runs ← t.getd "runs" (.arr [.obj []])
  let r0 ← runs.item0
  let title ← r0.getd "text" (.str "Unknown")
  let vct ← video.getd "viewCountText" (.obj [])
  let view_text ← vct.getd "simpleText" (.str "")
  let views ← parse_view_count_advanced_val view_text
  let ot ← video.getd "ownerText" (.obj [])
  let oruns ← ot.getd "runs" (.arr [.obj []])
  let o0 ← oruns.item0
  let channel ← o0.getd "text" (.str "Unknown")
  let badges ← video.getd "ownerBadges" (.arr [.obj []])
  let b0 ← badges.item0
  let mbr ← b0.getd "metadataBadgeRenderer" (.obj [])
  let st ← mbr.getd "style" .null
  let channel_verified := Json.beq st (.str "BADGE_STYLE_TYPE_VERIFIED")
  let lt ← video.getd "lengthText" (.obj [])
  let duration ← lt.getd "simpleText" (.str "")
  let pt ← video.getd "publishedTimeText" (.obj [])
  let age ← pt.getd "simpleText" (.str "")
  let hasSnip ← video.hasKey "detailedMetadataSnippets"
  let description ←
    if hasSnip then do
      let snippets ← video.getd "detailedMetadataSnippets" (.arr [])
      if snippets.falsy then pure "" else do
        let s0 ← snippets.item0
        let stx ← s0.getd "snippetText" (.obj [])
        let runs2 ← stx.getd "runs" (.arr [])
        let rl ← runs2.asList
        joinRunTexts rl
    else pure ""
  pure {
    id := video_id, title := title, duration := duration, views := views,
    views_text := view_text, channel := channel,
    channel_verified := channel_verified, age := age,
    description := String.mk (description.data.take 100),
    url := "https://youtube.com/watch?v=" ++ video_id.fstr,
    short_url := "youtu.be/" ++ video_id.fstr }

end Enhanced

namespace Fixed

/-- The result dict built by `search_youtube_direct`
(youtube_search_fixed.py:104-114). -/
structure Video where
  id : Json
  title : Json
  duration : Json
  views : Int
  views_text : Json
  channel : Json
  channel_verified : Bool
  age : Json
  url : String

/-- The per-entry field extraction of `search_youtube_direct`
(youtube_search_fixed.py:80-114), factored out of the loop body. -/
def parse_video (video : Json) : Except PyErr Video := do
  let video_id ← video.getd "videoId" (.str "")
  let t ← video.getd "title" (.obj [])
  let runs ← t.getd "runs" (.arr [.obj []])
  let r0 ← runs.item0
  let title ← r0.getd "text" (.str "Unknown")
  let vct ← video.getd "viewCountText" (.obj [])
  let view_text ← vct.getd "simpleText" (.str "")
  let views ← parse_view_count_val view_text
  let ot ← video.getd "ownerText" (.obj [])
  let oruns ← ot.getd "runs" (.arr [.obj []])
  let o0 ← oruns.item0
  let channel ← o0.getd "text" (.str "Unknown")
  let hasBadges ← video.hasKey "ownerBadges"
  let channel_verified ←
    if hasBadges then do
      let badges ← video.getd "ownerBadges" (.arr [])
      let bl ← badges.asList
      badgeLoop bl
    else pure false
  let lt ← video.getd "lengthText" (.obj [])
  let duration ← lt.getd "simpleText" (.str "")
  let pt ← video.getd "publishedTimeText" (.obj [])
  let age ← pt.getd "simpleText" (.str "")
  pure {
    id := video_id, title := title, duration := duration, views := views,
    views_text := view_text, channel := channel,
    channel_verified := channel_verified, age := age,
    url := "youtu.be/" ++ video_id.fstr }

end Fixed

/-! ## The result-walk shared by all variants

The nested `for` loops over section list and item-section contents are
byte-for-byte identical in the three files (search.py:49-62,
youtube_search_enhanced.py:198-250, youtube_search_fixed.py:72-119) up to
the per-video body and the cap's `return` expression; they are modelled
once, parameterized by the per-video parser.  An exception aborts the walk
carrying the `videos` accumulated so far (the Python list lives in the
enclosing scope, so the handlers can still see it). -/

inductive LoopRes (V : Type) where
  | more (acc : List V)
  | stop (acc : List V)
  | fail (e : PyErr) (acc : List V)

/-- The inner `for item in content['itemSectionRenderer']['contents']`
loop: skip entries without a `videoRenderer` wrapper; parse the rest;
after each append, return as soon as `len(videos) >= max_results`. -/
def itemsLoop {V : Type} (parseV : Json → Except PyErr V) (maxR : Int) :
    List Json → List V → LoopRes V
  | [], acc => .more acc
  | item :: rest, acc =>
    match item.hasKey "videoRenderer" with
    | .error e => .fail e acc
    | .ok false => itemsLoop parseV maxR rest acc
    | .ok true =>
      match item.getItem "videoRenderer" with
      | .error e => .fail e acc
      | .ok video =>
        match parseV video with
        | .error e => .fail e acc
        | .ok vd =>
          let acc2 := acc ++ [vd]
          if maxR ≤ (acc2.length : Int) then .stop acc2
          else itemsLoop parseV maxR rest acc2

/-- The outer `for content in contents` loop: skip entries without an
`itemSectionRenderer` wrapper, then run the inner loop on the section's
`contents`. -/
def sectionsLoop {V : Type} (parseV : Json → Except PyErr V) (maxR : Int) :
    List Json → List V → LoopRes V
  | [], acc => .more acc
  | content :: rest, acc =>
    match content.hasKey "itemSectionRenderer" with
    | .error e => .fail e acc
    | .ok false => sectionsLoop parseV maxR rest acc
    | .ok true =>
      match content.getItem "itemSectionRenderer" with
      | .error e => .fail e acc
      | .ok sec =>
        match sec.getItem "contents" with
        | .error e => .fail e acc
        | .ok cj =>
          match cj.asList with
          | .error e => .fail e acc
          | .ok items =>
            match itemsLoop parseV maxR items acc with
            | .more acc2 => sectionsLoop parseV maxR rest acc2
            | .stop acc2 => .stop acc2
            | .fail e acc2 => .fail e acc2

/-- The fixed navigation path
`data['contents']['twoColumnSearchResultsRenderer']['primaryContents']
['sectionListRenderer']['contents']`. -/
def pathContents (data : Json) : Except PyErr Json := do
  let a ← data.getItem "contents"
  let b ← a.getItem "twoColumnSearchResultsRenderer"
  let c ← b.getItem "primaryContents"
  let d ← c.getItem "sectionListRenderer"
  d.getItem "contents"

/-- Whole walk of one parsed document. -/
def walkDoc {V : Type} (parseV : Json → Except PyErr V) (data : Json) (maxR : Int) :
    LoopRes V :=
  match pathContents data with
  | .error e => .fail e []
  | .ok cj =>
    match cj.asList with
    | .error e => .fail e []
    | .ok sections => sectionsLoop parseV maxR sections []

/-! ## Stable descending sort

`sorted(videos, key=lambda x: x.get('views', 0), reverse=True)` is
Python's stable sort, descending on the key; equal keys keep their
original relative order.  Stable insertion sort is extensionally the same
function. -/

def insertDesc {V : Type} (key : V → Int) (x : V) : List V → List V
  | [] => [x]
  | y :: ys => if key y ≤ key x then x :: y :: ys else y :: insertDesc key x ys

def sortDesc {V : Type} (key : V → Int) : List V → List V
  | [] => []
  | x :: xs => insertDesc key x (sortDesc key xs)

/-- `YouTubeSearcher._sort_by_views` (search.py:129-131). -/
def YtSearch.sort_by_views (videos : List YtSearch.Video) : List YtSearch.Video :=
  sortDesc (fun v => v.views) videos

/-! ## Extraction entry points (per variant) -/

/-- The extraction phase of `YouTubeSearcher.search` (search.py:44-70),
from parsed document to returned list.  The cap return and the fall-off
return both sort; `except KeyError: pass` keeps the accumulated records
and sorts them too; any other exception reaches the catch-all handler,
which returns `[]`. -/
def YtSearch.search_extract (data : Json) (max_results : Int) : List YtSearch.Video :=
  match walkDoc YtSearch.parse_video data max_results with
  | .more vids => YtSearch.sort_by_views vids
  | .stop vids => YtSearch.sort_by_views vids
  | .fail .keyError vids => YtSearch.sort_by_views vids
  | .fail _ _ => []

/-- The extraction phase of `search_youtube_advanced`
(youtube_search_enhanced.py:192-256): document order is returned as-is;
`except KeyError` returns `[]`, as does the catch-all handler. -/
def Enhanced.search_youtube_advanced_extract (data : Json) (max_results : Int) :
    List Enhanced.Video :=
  match walkDoc Enhanced.parse_video data max_results with
  | .more vids => vids
  | .stop vids => vids
  | .fail _ _ => []

/-- The extraction phase of `search_youtube_direct`
(youtube_search_fixed.py:66-125): document order; `except KeyError`
returns `[]`, as does the catch-all handler. -/
def Fixed.search_youtube_direct_extract (data : Json) (max_results : Int) :
    List Fixed.Video :=
  match walkDoc Fixed.parse_video data max_results with
  | .more vids => vids
  | .stop vids => vids
  | .fail _ _ => []

/-! ## Page level: the anchor regex and `json.loads`

`re.search(r'var ytInitialData = ({.*?});', html)` — the fixed anchor
text, then the lazy group: a brace, the shortest newline-free run up to a
following brace-semicolon.  `json.loads` is standard-library code the
repository does not contain; it is abstracted as a parameter
(`none` models its `ValueError`). -/

def anchorMarker : List Char := "var ytInitialData = ".data

/-- Scan for the end of the lazy group: first `};` (newline fails the
attempt, since `.` does not match `\n`). -/
def grabGo : List Char → List Char → Option (List Char)
  | [], _ => none
  | c :: rest, acc =>
    if c = '}' && rest.head? == some ';' then some (acc ++ ['}'])
    else if c = '\n' then none
    else grabGo rest (acc ++ [c])

/-- One attempt of the pattern's tail right after the anchor text. -/
def tryMatch (s : List Char) : Option (List Char) :=
  match s with
  | '{' :: rest => grabGo rest ['{']
  | _ => none

/-- `re.search` for the anchor pattern: leftmost position where the whole
pattern matches; returns group 1. -/
def reSearchData : List Char → Option (List Char)
  | [] => none
  | c :: t =>
    if anchorMarker.isPrefixOf (c :: t) then
      match tryMatch ((c :: t).drop anchorMarker.length) with
      | some g => some g
      | none => reSearchData t
    else reSearchData t

/-- `YouTubeSearcher.search` from page text on (search.py:37-70): no
regex match returns `[]`; a `json.loads` failure reaches the catch-all
handler, `[]` again; otherwise the walk runs. -/
def YtSearch.search (loads : List Char → Option Json) (html : List Char)
    (max_results : Int) : List YtSearch.Video :=
  match reSearchData html with
  | none => []
  | some g =>
    match loads g with
    | none => []
    | some data => YtSearch.search_extract data max_results

/-- `search_youtube_advanced` from page text on
(youtube_search_enhanced.py:185-260). -/
def Enhanced.search_youtube_advanced (loads : List Char → Option Json)
    (html : List Char) (max_results : Int) : List Enhanced.Video :=
  match reSearchData html with
  | none => []
  | some g =>
    match loads g with
    | none => []
    | some data => Enhanced.search_youtube_advanced_extract data max_results

/-! ## Specification-side view of a document

`docVideos parseV d = some vs` holds exactly when the walk traverses the
whole document without raising: `vs` is then the full sequence of parsed
video-renderer entries in document order, non-video entries skipped.  The
cap-free traversal is the reference against which the capped loops are
characterized. -/

def itemsVideos {V : Type} (parseV : Json → Except PyErr V) : List Json → Option (List V)
  | [] => some []
  | item :: rest =>
    match item.hasKey "videoRenderer" with
    | .error _ => none
    | .ok false => itemsVideos parseV rest
    | .ok true =>
      match item.getItem "videoRenderer" with
      | .error _ => none
      | .ok video =>
        match parseV video with
        | .error _ => none
        | .ok vd =>
          match itemsVideos parseV rest with
          | none => none
          | some tl => some (vd :: tl)

def sectionsVideos {V : Type} (parseV : Json → Except PyErr V) : List Json → Option (List V)
  | [] => some []
  | content :: rest =>
    match content.hasKey "itemSectionRenderer" with
    | .error _ => none
    | .ok false => sectionsVideos parseV rest
    | .ok true =>
      match content.getItem "itemSectionRenderer" with
      | .error _ => none
      | .ok sec =>
        match sec.getItem "contents" with
        | .error _ => none
        | .ok cj =>
          match cj.asList with
          | .error _ => none
          | .ok items =>
            match itemsVideos parseV items with
            | none => none
            | some vs =>
              match sectionsVideos parseV rest with
              | none => none
              | some tl => some (vs ++ tl)

def docVideos {V : Type} (parseV : Json → Except PyErr V) (data : Json) : Option (List V) :=
  match pathContents data with
  | .error _ => none
  | .ok cj =>
    match cj.asList with
    | .error _ => none
    | .ok sections => sectionsVideos parseV sections

/-- The accumulator carried by a loop outcome. -/
def LoopRes.resAcc {V : Type} : LoopRes V → List V
  | .more a => a
  | .stop a => a
  | .fail _ a => a

/-! ## Concrete documents used by witnesses and counterexamples -/

/-- A well-shaped video-renderer wrapper; the `ownerBadges` key is only
present when there are badges (an empty badge list would make the
enhanced variant's `[0]` raise `IndexError`). -/
def mkVideoEntry (id title viewText channel : String) (badges : List Json) : Json :=
  .obj [("videoRenderer", .obj ([
    ("videoId", .str id),
    ("title", .obj [("runs", .arr [.obj [("text", .str title)]])]),
    ("viewCountText", .obj [("simpleText", .str viewText)]),
    ("ownerText", .obj [("runs", .arr [.obj [("text", .str channel)]])])] ++
    (if badges.isEmpty then [] else [("ownerBadges", .arr badges)]) ++ [
    ("lengthText", .obj [("simpleText", .str "10:00")]),
    ("publishedTimeText", .obj [("simpleText", .str "1 year ago")])]))]

def verifiedBadge : Json :=
  .obj [("metadataBadgeRenderer", .obj [("style", .str "BADGE_STYLE_TYPE_VERIFIED")])]

def plainBadge : Json :=
  .obj [("metadataBadgeRenderer", .obj [("style", .str "BADGE_STYLE_TYPE_MEMBER")])]

/-- An ad-renderer entry: a legitimate non-video entry kind. -/
def adEntry : Json := .obj [("adSlotRenderer", .obj [])]

/-- A document with the standard navigation path over the given section
list. -/
def mkDoc (sections : List Json) : Json :=
  .obj [("contents", .obj [("twoColumnSearchResultsRenderer", .obj [
    ("primaryContents", .obj [("sectionListRenderer", .obj [
      ("contents", .arr sections)])])])])]

def mkSection (items : List Json) : Json :=
  .obj [("itemSectionRenderer", .obj [("contents", .arr items)])]

/-- Spec section 8 end-to-end fixture: two video entries (2.1M verified,
850 unverified) with an ad entry between them. -/
def sampleDoc : Json :=
  mkDoc [mkSection [
    mkVideoEntry "aaa" "First" "2.1M views" "ChanA" [verifiedBadge],
    adEntry,
    mkVideoEntry "bbb" "Second" "850 views" "ChanB" []]]

/-- A document whose second section has an `itemSectionRenderer` that
lacks the `contents` key: the walk raises `KeyError` after one record. -/
def midFailDoc : Json :=
  mkDoc [mkSection [mkVideoEntry "aaa" "First" "850 views" "ChanA" []],
         .obj [("itemSectionRenderer", .obj [])]]

/-! ## Further concrete fixtures -/

/-- Document order differs from view order: low-view entry first. -/
def orderDoc : Json :=
  mkDoc [mkSection [mkVideoEntry "low" "Low" "850 views" "C1" [],
                    mkVideoEntry "high" "High" "2.1M views" "C2" []]]

/-- The verified badge sits in the SECOND badge slot. -/
def badgeDoc : Json :=
  mkDoc [mkSection [mkVideoEntry "v" "V" "10 views" "C" [plainBadge, verifiedBadge]]]

/-- Concrete module-variant record for the sorting fixture. -/
def mkVidM (id : String) (views : Int) : YtSearch.Video :=
  ⟨.str id, .str "title", .str "", views, .str "", .str "chan", false, .str "",
   "youtu.be/" ++ id, "https://youtube.com/watch?v=" ++ id⟩

/-- Did the walk abort with a `KeyError`? -/
def LoopRes.isKeyFail {V : Type} : LoopRes V → Bool
  | .fail .keyError _ => true
  | _ => false

/-- The first record the module variant extracts from `sampleDoc`. -/
def sampleRecA : YtSearch.Video :=
  ⟨.str "aaa", .str "First", .str "10:00", 2100000, .str "2.1M views", .str "ChanA", true,
   .str "1 year ago", "youtu.be/aaa", "https://youtube.com/watch?v=aaa"⟩

/-! ## Spec-side predicates and result classifiers -/

/-- Accumulator bound maintained by the loops: strict below the cap while
looping, at most the cap when stopping. -/
def LoopRes.bounded {V : Type} (maxR : Int) : LoopRes V → Prop
  | .more a => (a.length : Int) < maxR
  | .stop a => (a.length : Int) ≤ maxR
  | .fail _ a => (a.length : Int) < maxR

/-- Spec-side reading of one badge entry: a metadata badge with the
verified style is present at this entry (computed with the same access
semantics the code uses). -/
def isVerifiedBadge (b : Json) : Bool :=
  match b.hasKey "metadataBadgeRenderer" with
  | .ok true =>
    match b.getItem "metadataBadgeRenderer" with
    | .ok m =>
      match m.getd "style" .null with
      | .ok st => Json.beq st (.str "BADGE_STYLE_TYPE_VERIFIED")
      | .error _ => false
    | .error _ => false
  | _ => false

/-- A badge entry shaped so the scan cannot raise: a dict whose
`metadataBadgeRenderer` value, when present, is itself a dict. -/
def badgeWellFormed (b : Json) : Bool :=
  match b with
  | .obj fs =>
    match fs.lookup "metadataBadgeRenderer" with
    | some (.obj _) => true
    | some _ => false
    | none => true
  | _ => false

/-- Characters a parsed decimal literal can contain. -/
def goodFloatChar (c : Char) : Bool :=
  c.isDigit || c = '-' || c = '+' || c = '.'

/-! ## Lemmas: stable descending sort -/

theorem insertDesc_perm {V : Type} (key : V → Int) (x : V) (l : List V) :
    List.Perm (insertDesc key x l) (x :: l) := by
  induction l with
  | nil => exact List.Perm.refl _
  | cons y ys ih =>
    by_cases h : key y ≤ key x
    · simp only [insertDesc, if_pos h]
      exact List.Perm.refl _
    · simp only [insertDesc, if_neg h]
      exact (ih.cons y).trans (List.Perm.swap x y ys)

theorem sortDesc_perm {V : Type} (key : V → Int) (l : List V) :
    List.Perm (sortDesc key l) l := by
  induction l with
  | nil => exact List.Perm.refl _
  | cons x xs ih => exact (insertDesc_perm key x (sortDesc key xs)).trans (ih.cons x)

theorem sortDesc_length {V : Type} (key : V → Int) (l : List V) :
    (sortDesc key l).length = l.length :=
  (sortDesc_perm key l).length_eq

theorem sortDesc_mem {V : Type} (key : V → Int) (l : List V) (r : V) :
    r ∈ sortDesc key l ↔ r ∈ l :=
  (sortDesc_perm key l).mem_iff

theorem insertDesc_pairwise {V : Type} (key : V → Int) (x : V) {l : List V}
    (hl : l.Pairwise (fun a b => key b ≤ key a)) :
    (insertDesc key x l).Pairwise (fun a b => key b ≤ key a) := by
  induction l with
  | nil => simp [insertDesc]
  | cons y ys ih =>
    rcases List.pairwise_cons.mp hl with ⟨h1, h2⟩
    by_cases h : key y ≤ key x
    · simp only [insertDesc, if_pos h]
      refine List.pairwise_cons.mpr ⟨?_, hl⟩
      intro z hz
      rcases List.mem_cons.mp hz with rfl | hz
      · exact h
      · exact (h1 z hz).trans h
    · simp only [insertDesc, if_neg h]
      refine List.pairwise_cons.mpr ⟨?_, ih h2⟩
      intro z hz
      rcases List.mem_cons.mp ((insertDesc_perm key x ys).mem_iff.mp hz) with rfl | hz
      · omega
      · exact h1 z hz

theorem sortDesc_pairwise {V : Type} (key : V → Int) (l : List V) :
    (sortDesc key l).Pairwise (fun a b => key b ≤ key a) := by
  induction l with
  | nil => simp [sortDesc]
  | cons x xs ih => exact insertDesc_pairwise key x ih

theorem insertDesc_filter {V : Type} (key : V → Int) (x : V) (l : List V) (v : Int) :
    (insertDesc key x l).filter (fun r => key r == v) =
      if key x == v then x :: l.filter (fun r => key r == v)
      else l.filter (fun r => key r == v) := by
  induction l with
  | nil =>
    by_cases hx : key x == v <;> simp [insertDesc, List.filter_cons, hx]
  | cons y ys ih =>
    by_cases h : key y ≤ key x
    · simp only [insertDesc, if_pos h]
      by_cases hx : key x == v <;> simp [List.filter_cons, hx]
    · simp only [insertDesc, if_neg h]
      by_cases hx : key x == v
      · have hxv : key x = v := by simpa using hx
        have hyv : (key y == v) = false := by
          have hne : key y ≠ v := by omega
          simpa using hne
        simp [List.filter_cons, hyv, ih, hx]
      · by_cases hy : key y == v <;> simp [List.filter_cons, hy, ih, hx]

theorem sortDesc_filter {V : Type} (key : V → Int) (l : List V) (v : Int) :
    (sortDesc key l).filter (fun r => key r == v) = l.filter (fun r => key r == v) := by
  induction l with
  | nil => rfl
  | cons x xs ih =>
    by_cases hx : key x == v <;>
      simp [sortDesc, insertDesc_filter, List.filter_cons, hx, ih]

/-! ## Lemmas: the capped walk -/

theorem LoopRes.bounded_resAcc {V : Type} {maxR : Int} {r : LoopRes V}
    (h : r.bounded maxR) : ((r.resAcc).length : Int) ≤ maxR := by
  cases r <;> simp only [LoopRes.bounded, LoopRes.resAcc] at * <;> omega

theorem itemsLoop_bounded {V : Type} (parseV : Json → Except PyErr V) (maxR : Int) :
    ∀ (items : List Json) (acc : List V), (acc.length : Int) < maxR →
      (itemsLoop parseV maxR items acc).bounded maxR := by
  intro items
  induction items with
  | nil => intro acc h; simpa [itemsLoop, LoopRes.bounded] using h
  | cons item rest ih =>
    intro acc h
    simp only [itemsLoop]
    split
    · simpa [LoopRes.bounded] using h
    · exact ih acc h
    · split
      · simpa [LoopRes.bounded] using h
      · split
        · simpa [LoopRes.bounded] using h
        · split
          · rename_i vd hp hc
            have hlen : (acc ++ [vd]).length = acc.length + 1 := by simp
            simp only [LoopRes.bounded]
            omega
          · rename_i vd hp hc
            refine ih _ ?_
            omega

theorem sectionsLoop_bounded {V : Type} (parseV : Json → Except PyErr V) (maxR : Int) :
    ∀ (sections : List Json) (acc : List V), (acc.length : Int) < maxR →
      (sectionsLoop parseV maxR sections acc).bounded maxR := by
  intro sections
  induction sections with
  | nil => intro acc h; simpa [sectionsLoop, LoopRes.bounded] using h
  | cons content rest ih =>
    intro acc h
    simp only [sectionsLoop]
    split
    · simpa [LoopRes.bounded] using h
    · exact ih acc h
    · split
      · simpa [LoopRes.bounded] using h
      · split
        · simpa [LoopRes.bounded] using h
        · split
          · simpa [LoopRes.bounded] using h
          · rename_i items heq
            have hi := itemsLoop_bounded parseV maxR items acc h
            split
            · rename_i a hr
              rw [hr] at hi
              exact ih a hi
            · rename_i a hr
              rw [hr] at hi
              exact hi
            · rename_i e a hr
              rw [hr] at hi
              exact hi

theorem walkDoc_bounded {V : Type} (parseV : Json → Except PyErr V) (data : Json)
    {maxR : Int} (h : 0 < maxR) : (walkDoc parseV data maxR).bounded maxR := by
  unfold walkDoc
  split
  · simpa [LoopRes.bounded] using h
  · split
    · simpa [LoopRes.bounded] using h
    · exact sectionsLoop_bounded parseV maxR _ [] (by simpa using h)

/-- Every record an item loop ever accumulates either was in the incoming
accumulator or came out of the per-video parser. -/
theorem itemsLoop_mem {V : Type} (parseV : Json → Except PyErr V) (maxR : Int)
    {P : V → Prop} (hP : ∀ v r, parseV v = .ok r → P r) :
    ∀ (items : List Json) (acc : List V), (∀ r ∈ acc, P r) →
      ∀ r ∈ (itemsLoop parseV maxR items acc).resAcc, P r := by
  intro items
  induction items with
  | nil => intro acc hacc; simpa [itemsLoop, LoopRes.resAcc] using hacc
  | cons item rest ih =>
    intro acc hacc
    simp only [itemsLoop]
    split
    · simpa [LoopRes.resAcc] using hacc
    · exact ih acc hacc
    · split
      · simpa [LoopRes.resAcc] using hacc
      · split
        · simpa [LoopRes.resAcc] using hacc
        · rename_i vd hp
          have hvd : P vd := hP _ vd hp
          have hext : ∀ r ∈ acc ++ [vd], P r := by
            intro r hr
            rcases List.mem_append.mp hr with hr | hr
            · exact hacc r hr
            · rcases List.mem_singleton.mp hr with rfl
              exact hvd
          split
          · simpa [LoopRes.resAcc] using hext
          · exact ih (acc ++ [vd]) hext

theorem sectionsLoop_mem {V : Type} (parseV : Json → Except PyErr V) (maxR : Int)
    {P : V → Prop} (hP : ∀ v r, parseV v = .ok r → P r) :
    ∀ (sections : List Json) (acc : List V), (∀ r ∈ acc, P r) →
      ∀ r ∈ (sectionsLoop parseV maxR sections acc).resAcc, P r := by
  intro sections
  induction sections with
  | nil => intro acc hacc; simpa [sectionsLoop, LoopRes.resAcc] using hacc
  | cons content rest ih =>
    intro acc hacc
    simp only [sectionsLoop]
    split
    · simpa [LoopRes.resAcc] using hacc
    · exact ih acc hacc
    · split
      · simpa [LoopRes.resAcc] using hacc
      · split
        · simpa [LoopRes.resAcc] using hacc
        · split
          · simpa [LoopRes.resAcc] using hacc
          · rename_i items heq
            have hi := itemsLoop_mem parseV maxR hP items acc hacc
            split
            · rename_i a hr
              rw [hr] at hi
              exact ih a (by simpa [LoopRes.resAcc] using hi)
            · rename_i a hr
              rw [hr] at hi
              simpa [LoopRes.resAcc] using hi
            · rename_i e a hr
              rw [hr] at hi
              simpa [LoopRes.resAcc] using hi

theorem walkDoc_mem {V : Type} (parseV : Json → Except PyErr V) (data : Json) (maxR : Int)
    {P : V → Prop} (hP : ∀ v r, parseV v = .ok r → P r) :
    ∀ r ∈ (walkDoc parseV data maxR).resAcc, P r := by
  unfold walkDoc
  split
  · simp [LoopRes.resAcc]
  · split
    · simp [LoopRes.resAcc]
    · exact sectionsLoop_mem parseV maxR hP _ [] (by simp)

/-! ## Lemmas: the capped loop against the cap-free traversal -/

/-- Characterization of the inner loop on a section that traverses
cleanly: it stops with the first `max (maxR - |acc|) 1` parsed videos
appended as soon as that many are available, and otherwise appends all
of them and keeps looping. -/
theorem itemsLoop_eq {V : Type} (parseV : Json → Except PyErr V) (maxR : Int) :
    ∀ (items : List Json) (acc ws : List V),
      itemsVideos parseV items = some ws →
      itemsLoop parseV maxR items acc =
        if max (maxR - (acc.length : Int)) 1 ≤ (ws.length : Int) then
          LoopRes.stop (acc ++ ws.take (max (maxR - (acc.length : Int)) 1).toNat)
        else LoopRes.more (acc ++ ws) := by
  intro items
  induction items with
  | nil =>
    intro acc ws hw
    simp only [itemsVideos, Option.some_inj] at hw
    subst hw
    rw [if_neg ?_]
    · simp [itemsLoop]
    · have h1 : (1 : Int) ≤ max (maxR - (acc.length : Int)) 1 := le_max_right _ _
      simp only [List.length_nil, Nat.cast_zero]
      omega
  | cons item rest ih =>
    intro acc ws hw
    simp only [itemsVideos] at hw
    simp only [itemsLoop]
    cases hk : item.hasKey "videoRenderer" with
    | error e =>
      rw [hk] at hw
      dsimp only at hw
      exact absurd hw (by simp)
    | ok b =>
      rw [hk] at hw
      cases b with
      | false =>
        dsimp only at hw ⊢
        exact ih acc ws hw
      | true =>
        dsimp only at hw ⊢
        cases hv : item.getItem "videoRenderer" with
        | error e =>
          rw [hv] at hw
          dsimp only at hw
          exact absurd hw (by simp)
        | ok video =>
          rw [hv] at hw
          dsimp only at hw ⊢
          cases hp : parseV video with
          | error e =>
            rw [hp] at hw
            dsimp only at hw
            exact absurd hw (by simp)
          | ok vd =>
            rw [hp] at hw
            dsimp only at hw ⊢
            cases ht : itemsVideos parseV rest with
            | none =>
              rw [ht] at hw
              dsimp only at hw
              exact absurd hw (by simp)
            | some tl =>
              rw [ht] at hw
              dsimp only at hw
              rw [Option.some_inj] at hw
              subst hw
              have hlen : ((acc ++ [vd]).length : Int) = (acc.length : Int) + 1 := by
                simp
              have hws : (((vd :: tl).length : Int)) = (tl.length : Int) + 1 := by
                simp
              by_cases hc : maxR ≤ (acc.length : Int) + 1
              · have hm : (max (maxR - (acc.length : Int)) 1).toNat = 1 := by omega
                rw [if_pos (by omega), if_pos (by omega), hm]
                simp
              · rw [if_neg (by omega)]
                rw [ih (acc ++ [vd]) tl ht]
                by_cases hd : max (maxR - ((acc ++ [vd]).length : Int)) 1 ≤ (tl.length : Int)
                · rw [if_pos hd, if_pos (by omega)]
                  have hnat : (max (maxR - (acc.length : Int)) 1).toNat
                      = (max (maxR - ((acc ++ [vd]).length : Int)) 1).toNat + 1 := by
                    omega
                  rw [hnat]
                  simp [List.take_succ_cons]
                · rw [if_neg hd, if_neg (by omega)]
                  simp

/-- Characterization of the outer loop over sections that traverse
cleanly. -/
theorem sectionsLoop_eq {V : Type} (parseV : Json → Except PyErr V) (maxR : Int) :
    ∀ (sections : List Json) (acc vs : List V),
      sectionsVideos parseV sections = some vs →
      sectionsLoop parseV maxR sections acc =
        if max (maxR - (acc.length : Int)) 1 ≤ (vs.length : Int) then
          LoopRes.stop (acc ++ vs.take (max (maxR - (acc.length : Int)) 1).toNat)
        else LoopRes.more (acc ++ vs) := by
  intro sections
  induction sections with
  | nil =>
    intro acc vs hw
    simp only [sectionsVideos, Option.some_inj] at hw
    subst hw
    rw [if_neg ?_]
    · simp [sectionsLoop]
    · have h1 : (1 : Int) ≤ max (maxR - (acc.length : Int)) 1 := le_max_right _ _
      simp only [List.length_nil, Nat.cast_zero]
      omega
  | cons content rest ih =>
    intro acc vs hw
    simp only [sectionsVideos] at hw
    simp only [sectionsLoop]
    cases hk : content.hasKey "itemSectionRenderer" with
    | error e =>
      rw [hk] at hw
      dsimp only at hw
      exact absurd hw (by simp)
    | ok b =>
      rw [hk] at hw
      cases b with
      | false =>
        dsimp only at hw ⊢
        exact ih acc vs hw
      | true =>
        dsimp only at hw ⊢
        cases hs : content.getItem "itemSectionRenderer" with
        | error e =>
          rw [hs] at hw
          dsimp only at hw
          exact absurd hw (by simp)
        | ok sec =>
          rw [hs] at hw
          dsimp only at hw ⊢
          cases hcj : sec.getItem "contents" with
          | error e =>
            rw [hcj] at hw
            dsimp only at hw
            exact absurd hw (by simp)
          | ok cj =>
            rw [hcj] at hw
            dsimp only at hw ⊢
            cases hl : cj.asList with
            | error e =>
              rw [hl] at hw
              dsimp only at hw
              exact absurd hw (by simp)
            | ok items =>
              rw [hl] at hw
              dsimp only at hw ⊢
              cases hi : itemsVideos parseV items with
              | none =>
                rw [hi] at hw
                dsimp only at hw
                exact absurd hw (by simp)
              | some ws =>
                rw [hi] at hw
                dsimp only at hw
                cases htl : sectionsVideos parseV rest with
                | none =>
                  rw [htl] at hw
                  dsimp only at hw
                  exact absurd hw (by simp)
                | some tl =>
                  rw [htl] at hw
                  dsimp only at hw
                  rw [Option.some_inj] at hw
                  subst hw
                  rw [itemsLoop_eq parseV maxR items acc ws hi]
                  have hlen2 : (((ws ++ tl).length : Int))
                      = (ws.length : Int) + (tl.length : Int) := by
                    simp
                  by_cases hc : max (maxR - (acc.length : Int)) 1 ≤ (ws.length : Int)
                  · rw [if_pos hc]
                    dsimp only
                    rw [if_pos (by omega)]
                    have hsplit : (ws ++ tl).take (max (maxR - (acc.length : Int)) 1).toNat
                        = ws.take (max (maxR - (acc.length : Int)) 1).toNat := by
                      rw [List.take_append_eq_append_take]
                      have hz : (max (maxR - (acc.length : Int)) 1).toNat - ws.length = 0 := by
                        omega
                      rw [hz]
                      simp
                    rw [hsplit]
                  · rw [if_neg hc]
                    dsimp only
                    rw [ih (acc ++ ws) tl htl]
                    have hlen : ((acc ++ ws).length : Int)
                        = (acc.length : Int) + (ws.length : Int) := by
                      simp
                    have h1 : (1 : Int) ≤ max (maxR - (acc.length : Int)) 1 := le_max_right _ _
                    by_cases hd : max (maxR - ((acc ++ ws).length : Int)) 1 ≤ (tl.length : Int)
                    · rw [if_pos hd, if_pos (by omega)]
                      have hnat : (max (maxR - (acc.length : Int)) 1).toNat
                          = ws.length + (max (maxR - ((acc ++ ws).length : Int)) 1).toNat := by
                        omega
                      rw [List.take_append_eq_append_take, hnat]
                      have hwtake : ws.take (ws.length + (max (maxR - ((acc ++ ws).length : Int)) 1).toNat) = ws :=
                        List.take_of_length_le (by omega)
                      rw [hwtake]
                      have hrest : ws.length + (max (maxR - ((acc ++ ws).length : Int)) 1).toNat - ws.length
                          = (max (maxR - ((acc ++ ws).length : Int)) 1).toNat := by omega
                      rw [hrest, List.append_assoc]
                    · rw [if_neg hd, if_neg (by omega)]
                      rw [List.append_assoc]

/-- Whole-document characterization: on a document the cap-free traversal
handles cleanly (`docVideos ... = some vs`), the walk stops with the
first `max maxR 1` videos when that many exist, and otherwise completes
with all of them.  (`max maxR 1` because the cap is only tested after an
append: even `maxR ≤ 0` lets one record through.) -/
theorem walkDoc_eq {V : Type} (parseV : Json → Except PyErr V) (data : Json) (maxR : Int)
    (vs : List V) (hvs : docVideos parseV data = some vs) :
    walkDoc parseV data maxR =
      if max maxR 1 ≤ (vs.length : Int) then
        LoopRes.stop (vs.take (max maxR 1).toNat)
      else LoopRes.more vs := by
  unfold docVideos at hvs
  unfold walkDoc
  cases hp : pathContents data with
  | error e => rw [hp] at hvs; exact absurd hvs (by simp)
  | ok cj =>
    rw [hp] at hvs
    dsimp only at hvs
    cases hl : cj.asList with
    | error e => rw [hl] at hvs; dsimp only at hvs; exact absurd hvs (by simp)
    | ok sections =>
      rw [hl] at hvs
      dsimp only at hvs
      dsimp only
      rw [hl]
      dsimp only
      rw [sectionsLoop_eq parseV maxR sections [] vs hvs]
      simp only [List.length_nil, Nat.cast_zero, sub_zero, List.nil_append]

/-! ## Extraction characterized on cleanly traversed documents -/

theorem enhanced_extract_eq (data : Json) (maxR : Int) (vs : List Enhanced.Video)
    (hvs : docVideos Enhanced.parse_video data = some vs) :
    Enhanced.search_youtube_advanced_extract data maxR = vs.take (max maxR 1).toNat := by
  unfold Enhanced.search_youtube_advanced_extract
  rw [walkDoc_eq Enhanced.parse_video data maxR vs hvs]
  by_cases hc : max maxR 1 ≤ (vs.length : Int)
  · rw [if_pos hc]
  · rw [if_neg hc]
    dsimp only
    exact (List.take_of_length_le (by omega)).symm

theorem fixed_extract_eq (data : Json) (maxR : Int) (vs : List Fixed.Video)
    (hvs : docVideos Fixed.parse_video data = some vs) :
    Fixed.search_youtube_direct_extract data maxR = vs.take (max maxR 1).toNat := by
  unfold Fixed.search_youtube_direct_extract
  rw [walkDoc_eq Fixed.parse_video data maxR vs hvs]
  by_cases hc : max maxR 1 ≤ (vs.length : Int)
  · rw [if_pos hc]
  · rw [if_neg hc]
    dsimp only
    exact (List.take_of_length_le (by omega)).symm

theorem ytsearch_extract_eq (data : Json) (maxR : Int) (vs : List YtSearch.Video)
    (hvs : docVideos YtSearch.parse_video data = some vs) :
    YtSearch.search_extract data maxR
      = YtSearch.sort_by_views (vs.take (max maxR 1).toNat) := by
  unfold YtSearch.search_extract
  rw [walkDoc_eq YtSearch.parse_video data maxR vs hvs]
  by_cases hc : max maxR 1 ≤ (vs.length : Int)
  · rw [if_pos hc]
  · rw [if_neg hc]
    dsimp only
    rw [List.take_of_length_le (by omega)]

theorem enhanced_extract_le (data : Json) {maxR : Int} (h : 0 < maxR) :
    ((Enhanced.search_youtube_advanced_extract data maxR).length : Int) ≤ maxR := by
  have hb := walkDoc_bounded Enhanced.parse_video data h
  unfold Enhanced.search_youtube_advanced_extract
  cases hw : walkDoc Enhanced.parse_video data maxR with
  | more a =>
    rw [hw] at hb
    simp only [LoopRes.bounded] at hb
    dsimp only
    omega
  | stop a =>
    rw [hw] at hb
    simp only [LoopRes.bounded] at hb
    dsimp only
    omega
  | fail e a =>
    dsimp only
    simp
    omega

theorem fixed_extract_le (data : Json) {maxR : Int} (h : 0 < maxR) :
    ((Fixed.search_youtube_direct_extract data maxR).length : Int) ≤ maxR := by
  have hb := walkDoc_bounded Fixed.parse_video data h
  unfold Fixed.search_youtube_direct_extract
  cases hw : walkDoc Fixed.parse_video data maxR with
  | more a =>
    rw [hw] at hb
    simp only [LoopRes.bounded] at hb
    dsimp only
    omega
  | stop a =>
    rw [hw] at hb
    simp only [LoopRes.bounded] at hb
    dsimp only
    omega
  | fail e a =>
    dsimp only
    simp
    omega

theorem ytsearch_extract_le (data : Json) {maxR : Int} (h : 0 < maxR) :
    ((YtSearch.search_extract data maxR).length : Int) ≤ maxR := by
  have hb := walkDoc_bounded YtSearch.parse_video data h
  unfold YtSearch.search_extract
  cases hw : walkDoc YtSearch.parse_video data maxR with
  | more a =>
    rw [hw] at hb
    simp only [LoopRes.bounded] at hb
    dsimp only
    rw [YtSearch.sort_by_views, sortDesc_length]
    omega
  | stop a =>
    rw [hw] at hb
    simp only [LoopRes.bounded] at hb
    dsimp only
    rw [YtSearch.sort_by_views, sortDesc_length]
    omega
  | fail e a =>
    rw [hw] at hb
    simp only [LoopRes.bounded] at hb
    cases e with
    | keyError =>
      dsimp only
      rw [YtSearch.sort_by_views, sortDesc_length]
      omega
    | valueError =>
      dsimp only
      simp
      omega
    | otherError =>
      dsimp only
      simp
      omega

/-! ## Claim theorems -/

/-- C1: for every parsed document and positive `maxResults`, extraction
returns at most `maxResults` records (in every variant, malformed
documents included); on documents the walk traverses cleanly it returns
exactly the first `maxResults` video-renderer entries of the document
(the module variant returns those same records, sorted), so non-video
entries produce no records and do not count toward the cap, and when the
document lists at least `maxResults` video entries the count is exactly
`maxResults`. -/
theorem claim_C1_max_results_cap (data : Json) (maxR : Int) (h : 0 < maxR) :
    ((Enhanced.search_youtube_advanced_extract data maxR).length : Int) ≤ maxR
    ∧ ((YtSearch.search_extract data maxR).length : Int) ≤ maxR
    ∧ (∀ vs : List Enhanced.Video, docVideos Enhanced.parse_video data = some vs →
        Enhanced.search_youtube_advanced_extract data maxR = vs.take maxR.toNat
        ∧ (maxR ≤ (vs.length : Int) →
            ((Enhanced.search_youtube_advanced_extract data maxR).length : Int) = maxR))
    ∧ (∀ vs : List YtSearch.Video, docVideos YtSearch.parse_video data = some vs →
        YtSearch.search_extract data maxR = YtSearch.sort_by_views (vs.take maxR.toNat)) := by
  have hmax : max maxR 1 = maxR := by omega
  refine ⟨enhanced_extract_le data h, ytsearch_extract_le data h, ?_, ?_⟩
  · intro vs hvs
    have he := enhanced_extract_eq data maxR vs hvs
    rw [hmax] at he
    refine ⟨he, ?_⟩
    intro hge
    rw [he, List.length_take]
    omega
  · intro vs hvs
    have he := ytsearch_extract_eq data maxR vs hvs
    rwa [hmax] at he

theorem claim_C1_witness :
    ((Enhanced.search_youtube_advanced_extract sampleDoc 1).length : Int) ≤ 1
    ∧ Enhanced.search_youtube_advanced_extract sampleDoc 1
        = ((docVideos Enhanced.parse_video sampleDoc).getD []).take 1
    ∧ ((Enhanced.search_youtube_advanced_extract sampleDoc 1).length : Int) = 1
    ∧ YtSearch.search_extract sampleDoc 1
        = YtSearch.sort_by_views (((docVideos YtSearch.parse_video sampleDoc).getD []).take 1) := by
  have h := claim_C1_max_results_cap sampleDoc 1 (by norm_num)
  have h3 := h.2.2.1 ((docVideos Enhanced.parse_video sampleDoc).getD []) (by rfl)
  refine ⟨h.1, ?_, h3.2 (by decide), ?_⟩
  · simpa using h3.1
  · have h4 := h.2.2.2 ((docVideos YtSearch.parse_video sampleDoc).getD []) (by rfl)
    simpa using h4

/-- C2 counterexample: on a document listing the 850-view entry before
the 2.1M-view entry, the module variant's `search` returns the records
sorted by views — not in document order — already from the extraction
call, with no separate caller-invoked sorting step. -/
theorem claim_C2_counterexample :
    (YtSearch.search_extract orderDoc 20).map (fun r => r.views) = [2100000, 850]
    ∧ (docVideos YtSearch.parse_video orderDoc).map (fun l => l.map (fun r => r.views))
        = some [850, 2100000] := by decide

/-- C2 amended: the enhanced and fixed variants return extracted records
in document order (the prefix of the document's video-renderer sequence),
and sorting is a separate display step there; the module variant
(`yt_search/search.py`) instead sorts by views inside `search` itself
before returning. -/
theorem claim_C2_document_order (data : Json) (maxR : Int) :
    (∀ vs : List Enhanced.Video, docVideos Enhanced.parse_video data = some vs →
        Enhanced.search_youtube_advanced_extract data maxR = vs.take (max maxR 1).toNat)
    ∧ (∀ vs : List Fixed.Video, docVideos Fixed.parse_video data = some vs →
        Fixed.search_youtube_direct_extract data maxR = vs.take (max maxR 1).toNat)
    ∧ (∀ vs : List YtSearch.Video, docVideos YtSearch.parse_video data = some vs →
        YtSearch.search_extract data maxR
          = YtSearch.sort_by_views (vs.take (max maxR 1).toNat)) :=
  ⟨fun vs hvs => enhanced_extract_eq data maxR vs hvs,
   fun vs hvs => fixed_extract_eq data maxR vs hvs,
   fun vs hvs => ytsearch_extract_eq data maxR vs hvs⟩

theorem claim_C2_witness :
    Enhanced.search_youtube_advanced_extract orderDoc 20
      = ((docVideos Enhanced.parse_video orderDoc).getD []).take 20
    ∧ YtSearch.search_extract orderDoc 20
      = YtSearch.sort_by_views (((docVideos YtSearch.parse_video orderDoc).getD []).take 20) := by
  have h := claim_C2_document_order orderDoc 20
  constructor
  · have := h.1 ((docVideos Enhanced.parse_video orderDoc).getD []) (by rfl)
    simpa using this
  · have := h.2.2 ((docVideos YtSearch.parse_video orderDoc).getD []) (by rfl)
    simpa using this

/-- C7: `_sort_by_views` returns a permutation of its input, sorted in
descending order of the `views` field, and stably: the subsequence of
records at any fixed view count is unchanged; for view counts
[100, 500, 500, 10] the result is [500₁, 500₂, 100, 10] with the two
500-records in their original relative order. -/
theorem claim_C7_sort_by_views_stable (l : List YtSearch.Video) :
    List.Perm (YtSearch.sort_by_views l) l
    ∧ (YtSearch.sort_by_views l).Pairwise (fun a b => b.views ≤ a.views)
    ∧ (∀ v : Int, (YtSearch.sort_by_views l).filter (fun r => r.views == v)
        = l.filter (fun r => r.views == v))
    ∧ (∀ r1 r2 r3 r4 : YtSearch.Video, r1.views = 100 → r2.views = 500 →
        r3.views = 500 → r4.views = 10 →
        YtSearch.sort_by_views [r1, r2, r3, r4] = [r2, r3, r1, r4]) := by
  refine ⟨sortDesc_perm _ l, sortDesc_pairwise _ l, fun v => sortDesc_filter _ l v, ?_⟩
  intro r1 r2 r3 r4 h1 h2 h3 h4
  simp [YtSearch.sort_by_views, sortDesc, insertDesc, h1, h2, h3, h4]

theorem claim_C7_witness :
    YtSearch.sort_by_views [mkVidM "a" 100, mkVidM "b" 500, mkVidM "c" 500, mkVidM "d" 10]
      = [mkVidM "b" 500, mkVidM "c" 500, mkVidM "a" 100, mkVidM "d" 10] :=
  (claim_C7_sort_by_views_stable []).2.2.2
    (mkVidM "a" 100) (mkVidM "b" 500) (mkVidM "c" 500) (mkVidM "d" 10) rfl rfl rfl rfl

/-- C10 (implicit): the cap is tested only after an append, so with a
non-positive `maxResults` a document whose walk yields at least one video
record produces exactly one record, not zero — in the enhanced and the
module variant alike. -/
theorem claim_C10_nonpositive_cap (data : Json) (maxR : Int) (hmr : maxR ≤ 0) :
    (∀ vs : List Enhanced.Video, docVideos Enhanced.parse_video data = some vs →
        0 < vs.length →
        Enhanced.search_youtube_advanced_extract data maxR = vs.take 1
        ∧ (Enhanced.search_youtube_advanced_extract data maxR).length = 1)
    ∧ (∀ vs : List YtSearch.Video, docVideos YtSearch.parse_video data = some vs →
        0 < vs.length → (YtSearch.search_extract data maxR).length = 1) := by
  have hmax : max maxR 1 = 1 := by omega
  constructor
  · intro vs hvs hne
    have he := enhanced_extract_eq data maxR vs hvs
    rw [hmax] at he
    refine ⟨by simpa using he, ?_⟩
    rw [he]
    simp [List.length_take]
    omega
  · intro vs hvs hne
    have he := ytsearch_extract_eq data maxR vs hvs
    rw [hmax] at he
    rw [he, YtSearch.sort_by_views, sortDesc_length]
    simp [List.length_take]
    omega

theorem claim_C10_witness :
    Enhanced.search_youtube_advanced_extract sampleDoc 0
      = ((docVideos Enhanced.parse_video sampleDoc).getD []).take 1
    ∧ (Enhanced.search_youtube_advanced_extract sampleDoc 0).length = 1
    ∧ (YtSearch.search_extract sampleDoc 0).length = 1 := by
  have h := claim_C10_nonpositive_cap sampleDoc 0 (by norm_num)
  have h1 := h.1 ((docVideos Enhanced.parse_video sampleDoc).getD []) (by rfl) (by decide)
  have h2 := h.2 ((docVideos YtSearch.parse_video sampleDoc).getD []) (by rfl) (by decide)
  exact ⟨h1.1, h1.2, h2⟩

/-- If the anchor text occurs nowhere in the page, the regex search
fails. -/
theorem reSearchData_eq_none : ∀ {html : List Char},
    listContains html anchorMarker = false → reSearchData html = none := by
  intro html
  induction html with
  | nil => intro _; rfl
  | cons c t ih =>
    intro h
    simp only [listContains, Bool.or_eq_false_iff] at h
    simp only [reSearchData, h.1, Bool.false_eq_true, if_false]
    exact ih h.2

/-- C3 counterexample: a document whose second section carries an
`itemSectionRenderer` without the `contents` key makes the module
variant's walk raise `KeyError` after one record was extracted — and the
caught failure yields that one (sorted) record, not an empty sequence. -/
theorem claim_C3_counterexample :
    (walkDoc YtSearch.parse_video midFailDoc 20).isKeyFail = true
    ∧ (YtSearch.search_extract midFailDoc 20).length = 1 := by decide

/-- C3 amended: extraction never propagates a failure.  When the anchor
marker is absent from the page text both variants return an empty
sequence, as they do whenever the failure strikes on the top navigation
path (before any record is parsed).  A failure later in the walk is still
caught, but the variants differ in what the catch returns: the enhanced
variant always returns an empty sequence, while the module variant's
`except KeyError: pass` returns the records accumulated before the
failure, sorted by views. -/
theorem claim_C3_failures_absorbed (maxR : Int) :
    (∀ (loads : List Char → Option Json) (html : List Char),
        listContains html anchorMarker = false →
        Enhanced.search_youtube_advanced loads html maxR = []
        ∧ YtSearch.search loads html maxR = [])
    ∧ (∀ (data : Json) (e : PyErr) (acc : List Enhanced.Video),
        walkDoc Enhanced.parse_video data maxR = .fail e acc →
        Enhanced.search_youtube_advanced_extract data maxR = [])
    ∧ (∀ (data : Json) (acc : List YtSearch.Video),
        walkDoc YtSearch.parse_video data maxR = .fail .keyError acc →
        YtSearch.search_extract data maxR = YtSearch.sort_by_views acc)
    ∧ (∀ (data : Json) (e : PyErr), pathContents data = .error e →
        Enhanced.search_youtube_advanced_extract data maxR = []
        ∧ YtSearch.search_extract data maxR = []) := by
  refine ⟨?_, ?_, ?_, ?_⟩
  · intro loads html h
    have hr := reSearchData_eq_none h
    unfold Enhanced.search_youtube_advanced YtSearch.search
    rw [hr]
    exact ⟨rfl, rfl⟩
  · intro data e acc hw
    unfold Enhanced.search_youtube_advanced_extract
    rw [hw]
  · intro data acc hw
    unfold YtSearch.search_extract
    rw [hw]
  · intro data e hp
    have hw : walkDoc Enhanced.parse_video data maxR = .fail e [] := by
      unfold walkDoc
      rw [hp]
    have hw2 : walkDoc YtSearch.parse_video data maxR = .fail e [] := by
      unfold walkDoc
      rw [hp]
    constructor
    · unfold Enhanced.search_youtube_advanced_extract
      rw [hw]
    · unfold YtSearch.search_extract
      rw [hw2]
      cases e <;> rfl

theorem claim_C3_witness :
    (Enhanced.search_youtube_advanced (fun _ => none) "no anchor here".data 20 = []
      ∧ YtSearch.search (fun _ => none) "no anchor here".data 20 = [])
    ∧ Enhanced.search_youtube_advanced_extract (Json.obj []) 20 = []
    ∧ YtSearch.search_extract (Json.obj []) 20 = YtSearch.sort_by_views []
    ∧ (Enhanced.search_youtube_advanced_extract (Json.obj []) 20 = []
      ∧ YtSearch.search_extract (Json.obj []) 20 = []) := by
  have h := claim_C3_failures_absorbed 20
  exact ⟨h.1 (fun _ => none) "no anchor here".data (by decide),
    h.2.1 (Json.obj []) PyErr.keyError [] (by rfl),
    h.2.2.1 (Json.obj []) [] (by rfl),
    h.2.2.2 (Json.obj []) PyErr.keyError (by rfl)⟩

/-- Any record `_parse_video` produces carries `views` computed by the
module normalizer from the very `views_text` it stores. -/
theorem ytsearch_parse_video_views (v : Json) (r : YtSearch.Video)
    (h : YtSearch.parse_video v = .ok r) :
    YtSearch.parse_view_count_val r.views_text = .ok r.views := by
  simp only [YtSearch.parse_video, bind, Except.bind, pure, Except.pure] at h
  repeat' split at h
  all_goals first
    | exact Except.noConfusion h
    | (injection h with h; subst h; assumption)

/-- Likewise for the fixed variant's per-entry extraction. -/
theorem fixed_parse_video_views (v : Json) (r : Fixed.Video)
    (h : Fixed.parse_video v = .ok r) :
    Fixed.parse_view_count_val r.views_text = .ok r.views := by
  simp only [Fixed.parse_video, bind, Except.bind, pure, Except.pure] at h
  repeat' split at h
  all_goals first
    | exact Except.noConfusion h
    | (injection h with h; subst h; assumption)

/-- C6: in every record either extraction returns, the stored integer
`views` is exactly the variant's own view-count normalization of the
stored `views_text` — the two never diverge. -/
theorem claim_C6_views_derivable (data : Json) (maxR : Int) :
    (∀ r ∈ YtSearch.search_extract data maxR,
        YtSearch.parse_view_count_val r.views_text = .ok r.views)
    ∧ (∀ r ∈ Fixed.search_youtube_direct_extract data maxR,
        Fixed.parse_view_count_val r.views_text = .ok r.views) := by
  constructor
  · have hm := walkDoc_mem YtSearch.parse_video data maxR
      (P := fun r => YtSearch.parse_view_count_val r.views_text = .ok r.views)
      (fun v r h => ytsearch_parse_video_views v r h)
    intro r hr
    unfold YtSearch.search_extract at hr
    refine hm r ?_
    cases hw : walkDoc YtSearch.parse_video data maxR with
    | more a =>
      rw [hw] at hr
      dsimp only at hr
      rw [YtSearch.sort_by_views] at hr
      simpa [LoopRes.resAcc] using (sortDesc_mem _ a r).mp hr
    | stop a =>
      rw [hw] at hr
      dsimp only at hr
      rw [YtSearch.sort_by_views] at hr
      simpa [LoopRes.resAcc] using (sortDesc_mem _ a r).mp hr
    | fail e a =>
      rw [hw] at hr
      cases e with
      | keyError =>
        dsimp only at hr
        rw [YtSearch.sort_by_views] at hr
        simpa [LoopRes.resAcc] using (sortDesc_mem _ a r).mp hr
      | valueError => simp at hr
      | otherError => simp at hr
  · have hm := walkDoc_mem Fixed.parse_video data maxR
      (P := fun r => Fixed.parse_view_count_val r.views_text = .ok r.views)
      (fun v r h => fixed_parse_video_views v r h)
    intro r hr
    unfold Fixed.search_youtube_direct_extract at hr
    refine hm r ?_
    cases hw : walkDoc Fixed.parse_video data maxR with
    | more a =>
      rw [hw] at hr
      simpa [LoopRes.resAcc] using hr
    | stop a =>
      rw [hw] at hr
      simpa [LoopRes.resAcc] using hr
    | fail e a =>
      rw [hw] at hr
      simp at hr

theorem claim_C6_witness :
    sampleRecA ∈ YtSearch.search_extract sampleDoc 20
    ∧ YtSearch.parse_view_count_val sampleRecA.views_text = .ok sampleRecA.views := by
  have hmem : sampleRecA ∈ YtSearch.search_extract sampleDoc 20 := by
    have h : YtSearch.search_extract sampleDoc 20
        = sampleRecA :: (YtSearch.search_extract sampleDoc 20).tail := by rfl
    rw [h]
    exact List.mem_cons_self _ _
  exact ⟨hmem, (claim_C6_views_derivable sampleDoc 20).1 sampleRecA hmem⟩

/-! ## Owner-badge scanning (C8) -/

theorem any_key_eq_lookup_isSome (k : String) (fs : List (String × Json)) :
    fs.any (fun p => p.1 == k) = (fs.lookup k).isSome := by
  induction fs with
  | nil => rfl
  | cons p fs ih =>
    rcases p with ⟨a, b⟩
    by_cases ha : a = k
    · subst ha
      simp [List.lookup]
    · have h1 : (a == k) = false := by simpa using ha
      have h2 : (k == a) = false := by simpa using (Ne.symm ha)
      simp [List.lookup, h1, h2, ih]

/-- The badge loop of the module and fixed variants computes exactly
"some badge, at any position, carries the verified marker". -/
theorem badgeLoop_any : ∀ (badges : List Json),
    (∀ b ∈ badges, badgeWellFormed b = true) →
    badgeLoop badges = .ok (badges.any isVerifiedBadge) := by
  intro badges
  induction badges with
  | nil => intro _; rfl
  | cons b rest ih =>
    intro hwf
    have hb : badgeWellFormed b = true := hwf b (List.mem_cons_self _ _)
    have hrest : ∀ x ∈ rest, badgeWellFormed x = true :=
      fun x hx => hwf x (List.mem_cons_of_mem _ hx)
    cases b with
    | obj fs =>
      cases hlook : fs.lookup "metadataBadgeRenderer" with
      | none =>
        have hany : (fs.any (fun p => p.1 == "metadataBadgeRenderer")) = false := by
          rw [any_key_eq_lookup_isSome, hlook]
          rfl
        have hkey : (Json.obj fs).hasKey "metadataBadgeRenderer" = .ok false := by
          simp [Json.hasKey, hany]
        have hver : isVerifiedBadge (.obj fs) = false := by
          simp [isVerifiedBadge, hkey]
        simp only [badgeLoop, bind, Except.bind, hkey, List.any_cons, hver,
          Bool.false_or]
        exact ih hrest
      | some m =>
        have hany : (fs.any (fun p => p.1 == "metadataBadgeRenderer")) = true := by
          rw [any_key_eq_lookup_isSome, hlook]
          rfl
        have hkey : (Json.obj fs).hasKey "metadataBadgeRenderer" = .ok true := by
          simp [Json.hasKey, hany]
        have hget : (Json.obj fs).getItem "metadataBadgeRenderer" = .ok m := by
          simp [Json.getItem, hlook]
        cases m with
        | obj gs =>
          have hgetd : (Json.obj gs).getd "style" .null
              = .ok ((gs.lookup "style").getD .null) := rfl
          have hver : isVerifiedBadge (.obj fs)
              = Json.beq ((gs.lookup "style").getD .null) (.str "BADGE_STYLE_TYPE_VERIFIED") := by
            simp [isVerifiedBadge, hkey, hget, hgetd]
          by_cases hst : Json.beq ((gs.lookup "style").getD .null)
              (.str "BADGE_STYLE_TYPE_VERIFIED") = true
          · simp only [badgeLoop, bind, Except.bind, hkey, hget, hgetd, hst,
              List.any_cons, hver, Bool.true_or, if_true]
            rfl
          · have hst' : Json.beq ((gs.lookup "style").getD .null)
                (.str "BADGE_STYLE_TYPE_VERIFIED") = false := by
              simpa using hst
            simp only [badgeLoop, bind, Except.bind, hkey, hget, hgetd, hst',
              List.any_cons, hver, Bool.false_eq_true, if_false, Bool.false_or]
            exact ih hrest
        | null => simp [badgeWellFormed, hlook] at hb
        | bool x => simp [badgeWellFormed, hlook] at hb
        | str x => simp [badgeWellFormed, hlook] at hb
        | int x => simp [badgeWellFormed, hlook] at hb
        | arr x => simp [badgeWellFormed, hlook] at hb
    | null => simp [badgeWellFormed] at hb
    | bool x => simp [badgeWellFormed] at hb
    | str x => simp [badgeWellFormed] at hb
    | int x => simp [badgeWellFormed] at hb
    | arr x => simp [badgeWellFormed] at hb

/-- C8 counterexample: with the verified badge in the second badge slot,
the enhanced variant's record says unverified although the marker is
present among the badges. -/
theorem claim_C8_counterexample :
    (Enhanced.search_youtube_advanced_extract badgeDoc 20).map (fun r => r.channel_verified)
        = [false]
    ∧ [plainBadge, verifiedBadge].any isVerifiedBadge = true := by decide

/-- C8 amended: in the module and fixed variants the flag is true iff a
verified-style metadata badge occurs among the owner badges — at any
position; the enhanced variant (line 218) inspects only the first badge
entry, so a verified badge at a later position yields `false` there. -/
theorem claim_C8_verified_badge (badges : List Json)
    (hwf : ∀ b ∈ badges, badgeWellFormed b = true) :
    badgeLoop badges = .ok (badges.any isVerifiedBadge)
    ∧ ((YtSearch.search_extract badgeDoc 20).map (fun r => r.channel_verified) = [true]
       ∧ (Enhanced.search_youtube_advanced_extract badgeDoc 20).map
           (fun r => r.channel_verified) = [false]) :=
  ⟨badgeLoop_any badges hwf, by decide⟩

theorem claim_C8_witness :
    badgeLoop [plainBadge, verifiedBadge] = .ok true := by
  have h := (claim_C8_verified_badge [plainBadge, verifiedBadge]
    (by intro b hb; fin_cases hb <;> decide)).1
  rw [show ([plainBadge, verifiedBadge].any isVerifiedBadge) = true from by decide] at h
  exact h

/-- C9 counterexample: a query containing both "short" and "full" gets
`durationClass = short`: the `if`/`elif` chain gives "short"/"quick"
precedence, so "full" does not override it. -/
theorem claim_C9_counterexample :
    (Enhanced.parse_search_intent "full short course".data).duration = some "short"
    ∧ (Enhanced.parse_search_intent "full short course".data).duration ≠ some "long" := by
  decide

/-- C9 amended: "full"/"complete" sets `durationClass = long` — in
particular overriding the tutorial-keyword `medium` — but only when
neither "short" nor "quick" occurs in the query; the short/quick branch
is evaluated first and wins when both are present. -/
theorem claim_C9_duration_precedence (q : List Char)
    (hfull : listContains (pyLower q) "full".data = true
      ∨ listContains (pyLower q) "complete".data = true)
    (hshort : listContains (pyLower q) "short".data = false)
    (hquick : listContains (pyLower q) "quick".data = false) :
    (Enhanced.parse_search_intent q).duration = some "long" := by
  rcases hfull with hf | hf <;>
    simp [Enhanced.parse_search_intent, hshort, hquick, hf]

theorem claim_C9_witness :
    (Enhanced.parse_search_intent "full react course 2024".data).duration = some "long" :=
  claim_C9_duration_precedence "full react course 2024".data
    (Or.inl (by decide)) (by decide) (by decide)

/-! ## Lemmas: decimal literals and cleaned strings (C4, C5) -/

theorem stripSign_snd_cases (s : List Char) :
    (stripSign s).2 = s
    ∨ ∃ c0, (c0 = '-' ∨ c0 = '+') ∧ s = c0 :: (stripSign s).2 := by
  cases s with
  | nil => left; rfl
  | cons c r =>
    by_cases h1 : c = '-'
    · subst h1
      right
      exact ⟨'-', Or.inl rfl, by simp [stripSign]⟩
    · by_cases h2 : c = '+'
      · subst h2
        right
        exact ⟨'+', Or.inr rfl, by simp [stripSign]⟩
      · left
        simp [stripSign, h1, h2]

theorem pyFloat?_all_good {p : List Char} {x : Int × Nat} (h : pyFloat? p = some x) :
    p.all goodFloatChar = true := by
  unfold pyFloat? at h
  dsimp only at h
  rcases List.takeWhile_prefix (l := (stripSign p).2) (p := Char.isDigit) with ⟨rest, hrest⟩
  have hdrop : (stripSign p).2.drop ((stripSign p).2.takeWhile Char.isDigit).length = rest := by
    nth_rewrite 2 [← hrest]
    exact List.drop_left _ _
  rw [hdrop] at h
  have hip : ((stripSign p).2.takeWhile Char.isDigit).all goodFloatChar = true :=
    List.all_eq_true.mpr fun c hc => by
      have := List.mem_takeWhile_imp hc
      simp [goodFloatChar, this]
  have hrest_good : rest.all goodFloatChar = true := by
    cases rest with
    | nil => rfl
    | cons a frac =>
      split at h
      · rename_i heq
        exact absurd heq (by simp)
      · rename_i frac2 heq
        injection heq with h1 h2
        subst h1
        subst h2
        split at h
        · rename_i hcond
          simp only [Bool.and_eq_true] at hcond
          have hfrac := hcond.1
          simp only [List.all_cons, Bool.and_eq_true]
          refine ⟨by decide, ?_⟩
          exact List.all_eq_true.mpr fun c hc => by
            have := List.all_eq_true.mp hfrac c hc
            simp [goodFloatChar, this]
        · exact absurd h (by simp)
      · exact absurd h (by simp)
  have ht : (stripSign p).2.all goodFloatChar = true := by
    rw [← hrest, List.all_append]
    simp [hip, hrest_good]
  rcases stripSign_snd_cases p with heq | ⟨c0, hc0, heq⟩
  · rwa [heq] at ht
  · rw [heq, List.all_cons]
    rcases hc0 with rfl | rfl <;> simp [ht] <;> decide

theorem goodFloatChar_not_space {c : Char} (h : goodFloatChar c = true) :
    pySpace c = false := by
  by_contra hsp
  have hsp' : pySpace c = true := by
    revert hsp
    cases pySpace c <;> simp
  simp only [pySpace, Bool.or_eq_true, decide_eq_true_eq] at hsp'
  rcases hsp' with ((((h1 | h1) | h1) | h1) | h1) | h1 <;> subst h1 <;>
    simp [goodFloatChar] at h

theorem pyStrip_eq_self {p : List Char} (h : ∀ c ∈ p, pySpace c = false) :
    pyStrip p = p := by
  unfold pyStrip
  have h1 : p.dropWhile pySpace = p := by
    cases p with
    | nil => rfl
    | cons a t =>
      rw [List.dropWhile_cons_of_neg]
      simp [h a (List.mem_cons_self _ _)]
  rw [h1]
  have h2 : p.reverse.dropWhile pySpace = p.reverse := by
    cases hrev : p.reverse with
    | nil => rfl
    | cons a t =>
      have ha : a ∈ p := by
        rw [← List.mem_reverse, hrev]
        exact List.mem_cons_self _ _
      rw [List.dropWhile_cons_of_neg]
      simp [h a ha]
  rw [h2, List.reverse_reverse]

theorem listContains_single {s : List Char} {c : Char} :
    listContains s [c] = true ↔ c ∈ s := by
  induction s with
  | nil => simp [listContains]
  | cons a t ih =>
    simp only [listContains, Bool.or_eq_true, List.isPrefixOf, List.isPrefixOf_nil_left,
      Bool.and_true, List.mem_cons, ih]
    constructor
    · rintro (h | h)
      · left
        exact beq_iff_eq.mp h
      · right
        exact h
    · rintro (rfl | h)
      · left
        exact beq_iff_eq.mpr rfl
      · right
        exact h

theorem replaceGo_single_append (c : Char) : ∀ (p : List Char) (fuel : Nat), c ∉ p →
    p.length < fuel → replaceGo [c] [] fuel (p ++ [c]) = p := by
  intro p
  induction p with
  | nil =>
    intro fuel _ hf
    cases fuel with
    | zero => omega
    | succ f => simp [replaceGo, List.isPrefixOf]
  | cons a p' ih =>
    intro fuel ha hf
    simp only [List.mem_cons, not_or] at ha
    cases fuel with
    | zero => omega
    | succ f =>
      have hbe : (c == a) = false := by simpa using ha.1
      simp only [List.cons_append, replaceGo, List.isPrefixOf, hbe, Bool.false_and,
        Bool.false_eq_true, if_false, List.cons.injEq, true_and]
      exact ih f ha.2 (by simpa using Nat.lt_of_succ_lt_succ hf)

theorem pyReplace_single_append {p : List Char} {c : Char} (hc : c ∉ p) :
    pyReplace (p ++ [c]) [c] [] = p := by
  unfold pyReplace
  rw [if_neg (by simp)]
  exact replaceGo_single_append c p (p ++ [c]).length hc (by simp)

theorem pyInt?_append_none {p : List Char} {c : Char} (hd : c.isDigit = false)
    (h1 : c ≠ '-') (h2 : c ≠ '+') : pyInt? (p ++ [c]) = none := by
  unfold pyInt?
  have hmem : c ∈ (stripSign (p ++ [c])).2 := by
    rcases stripSign_snd_cases (p ++ [c]) with heq | ⟨c0, hc0, heq⟩
    · rw [heq]
      simp
    · have : c ∈ p ++ [c] := by simp
      rw [heq, List.mem_cons] at this
      rcases this with rfl | hmem
      · rcases hc0 with rfl | rfl <;> simp at h1 h2
      · exact hmem
  have hall : ((stripSign (p ++ [c])).2.all Char.isDigit) = false := by
    rcases hb : (stripSign (p ++ [c])).2.all Char.isDigit with _ | _
    · rfl
    · have := List.all_eq_true.mp hb c hmem
      rw [hd] at this
      exact absurd this (by simp)
  dsimp only
  rw [hall]
  simp

/-- General K/M/B rule of the enhanced normalizer: when the cleaned
string is a parseable decimal followed by one suffix letter, the result
is the decimal times the suffix multiplier, truncated. -/
theorem enhanced_suffix_rule (s p : List Char) (n : Int) (d : Nat) (c : Char) (mult : Int)
    (hc : (c = 'K' ∧ mult = 1000) ∨ (c = 'M' ∧ mult = 1000000)
      ∨ (c = 'B' ∧ mult = 1000000000))
    (hclean : Enhanced.cleanViews s = p ++ [c])
    (hp : pyFloat? p = some (n, d)) :
    Enhanced.parse_view_count_advanced s = truncMul n d mult := by
  have hgood := pyFloat?_all_good hp
  have hnotin : ∀ e : Char, goodFloatChar e = false → e ∉ p := by
    intro e he hmem
    have := List.all_eq_true.mp hgood e hmem
    rw [he] at this
    exact absurd this (by simp)
  have hK : 'K' ∉ p := hnotin 'K' (by decide)
  have hM : 'M' ∉ p := hnotin 'M' (by decide)
  have hB : 'B' ∉ p := hnotin 'B' (by decide)
  have hstrip : pyStrip p = p :=
    pyStrip_eq_self fun ch hm => goodFloatChar_not_space (List.all_eq_true.mp hgood ch hm)
  have hsne : s.isEmpty = false := by
    cases s with
    | nil =>
      rw [show Enhanced.cleanViews [] = [] from rfl] at hclean
      exact absurd hclean.symm (by simp)
    | cons a t => rfl
  have hcontains : ∀ e : Char, e ∉ p → e ≠ c → listContains (p ++ [c]) [e] = false := by
    intro e hep hec
    cases hb : listContains (p ++ [c]) [e] with
    | false => rfl
    | true =>
      have := listContains_single.mp hb
      rcases List.mem_append.mp this with hm | hm
      · exact absurd hm hep
      · exact absurd (List.mem_singleton.mp hm) hec
  have hself : listContains (p ++ [c]) [c] = true :=
    listContains_single.mpr (by simp)
  unfold Enhanced.parse_view_count_advanced
  dsimp only
  rw [hsne, hclean]
  rcases hc with ⟨rfl, rfl⟩ | ⟨rfl, rfl⟩ | ⟨rfl, rfl⟩
  · simp only [Bool.false_eq_true, if_false, hself, if_true,
      pyReplace_single_append hK, hstrip, hp]
  · simp only [Bool.false_eq_true, if_false, hself, if_true,
      hcontains 'K' hK (by decide), pyReplace_single_append hM, hstrip, hp]
  · simp only [Bool.false_eq_true, if_false, hself, if_true,
      hcontains 'K' hK (by decide), hcontains 'M' hM (by decide),
      pyReplace_single_append hB, hstrip, hp]

/-- The module normalizer's K/M behavior on clean suffixed decimals, and
its fallthrough-to-zero on a `B` suffix (no `B` branch exists; the final
`int()` fails and the bare `except` yields 0). -/
theorem module_suffix_rule (s p : List Char) (n : Int) (d : Nat) :
    (YtSearch.cleanViews s = p ++ ['M'] → pyFloat? p = some (n, d) →
        YtSearch.parse_view_count s = .ok (truncMul n d 1000000))
    ∧ (YtSearch.cleanViews s = p ++ ['K'] → pyFloat? p = some (n, d) →
        YtSearch.parse_view_count s = .ok (truncMul n d 1000))
    ∧ (YtSearch.cleanViews s = p ++ ['B'] → pyFloat? p = some (n, d) →
        YtSearch.parse_view_count s = .ok 0) := by
  have base : ∀ (c : Char), c ∉ ['-', '+', '.'] → YtSearch.cleanViews s = p ++ [c] →
      pyFloat? p = some (n, d) →
      ('K' ∉ p ∧ 'M' ∉ p ∧ 'B' ∉ p) ∧ s.isEmpty = false ∧
        (∀ e : Char, e ∉ p → e ≠ c → listContains (p ++ [c]) [e] = false) ∧
        listContains (p ++ [c]) [c] = true := by
    intro c _ hclean hp
    have hgood := pyFloat?_all_good hp
    have hnotin : ∀ e : Char, goodFloatChar e = false → e ∉ p := by
      intro e he hmem
      have := List.all_eq_true.mp hgood e hmem
      rw [he] at this
      exact absurd this (by simp)
    refine ⟨⟨hnotin 'K' (by decide), hnotin 'M' (by decide), hnotin 'B' (by decide)⟩,
      ?_, ?_, listContains_single.mpr (by simp)⟩
    · cases s with
      | nil =>
        rw [show YtSearch.cleanViews [] = [] from rfl] at hclean
        exact absurd hclean.symm (by simp)
      | cons a t => rfl
    · intro e hep hec
      cases hb : listContains (p ++ [c]) [e] with
      | false => rfl
      | true =>
        have := listContains_single.mp hb
        rcases List.mem_append.mp this with hm | hm
        · exact absurd hm hep
        · exact absurd (List.mem_singleton.mp hm) hec
  refine ⟨?_, ?_, ?_⟩
  · intro hclean hp
    obtain ⟨⟨hK, hM, hB⟩, hsne, hcont, hself⟩ := base 'M' (by decide) hclean hp
    unfold YtSearch.parse_view_count
    dsimp only
    rw [hsne, hclean]
    simp only [Bool.false_eq_true, if_false, hself, if_true,
      pyReplace_single_append hM, hp]
  · intro hclean hp
    obtain ⟨⟨hK, hM, hB⟩, hsne, hcont, hself⟩ := base 'K' (by decide) hclean hp
    unfold YtSearch.parse_view_count
    dsimp only
    rw [hsne, hclean]
    simp only [Bool.false_eq_true, if_false, hself, if_true,
      hcont 'M' hM (by decide), pyReplace_single_append hK, hp]
  · intro hclean hp
    obtain ⟨⟨hK, hM, hB⟩, hsne, hcont, hself⟩ := base 'B' (by decide) hclean hp
    unfold YtSearch.parse_view_count
    dsimp only
    rw [hsne, hclean]
    simp only [Bool.false_eq_true, if_false,
      hcont 'M' hM (by decide), hcont 'K' hK (by decide),
      pyInt?_append_none (show ('B').isDigit = false from by decide)
        (by decide) (by decide)]

/-- C4 counterexample: two parts of the claim fail. (a) The module
variant's normalizer has no `B` branch, so `"1B"` yields 0, not the
1,000,000,000 the claim's K/M/B rule demands. (b) Even where a branch
exists, the result is `int(float(prefix) * mult)` in IEEE-754 binary64
arithmetic, not the exact decimal product truncated: `float("32.3")`
rounds to slightly below 32.3, so `"32.3K"` yields 32299 in both
variants, while the claimed exact rule demands 32.3 x 1000 = 32300. -/
theorem claim_C4_counterexample :
    YtSearch.parse_view_count "1B".data = .ok 0
    ∧ (Except.ok (0 : Int) : Except PyErr Int) ≠ .ok 1000000000
    ∧ Enhanced.parse_view_count_advanced "32.3K".data = 32299
    ∧ YtSearch.parse_view_count "32.3K".data = .ok 32299
    ∧ (32299 : Int) ≠ 32300 := by decide

/-- C4 amended: the five reference equations hold in both cited variants
(the binary64 roundings are exact at those inputs). The general suffix
rule holds only with the multiplication read as the program computes it:
`int(float(prefix) * mult)` in IEEE-754 binary64 arithmetic (`truncMul`,
which rounds the decimal prefix to the nearest double, multiplies and
rounds again, then truncates toward zero) — this can fall below the exact
decimal product, as the included divergence `truncMul 323 10 1000 =
32299` next to the exact `tdiv (323 * 1000) 10 = 32300` shows. The
enhanced normalizer applies this rule for K, M and B; the module variant
implements only K and M — a cleaned string ending in `B` falls through to
the integer parse, which fails, and the result is 0. -/
theorem claim_C4_suffix_rules :
    (∀ s p n d, Enhanced.cleanViews s = p ++ ['K'] → pyFloat? p = some (n, d) →
        Enhanced.parse_view_count_advanced s = truncMul n d 1000)
    ∧ (∀ s p n d, Enhanced.cleanViews s = p ++ ['M'] → pyFloat? p = some (n, d) →
        Enhanced.parse_view_count_advanced s = truncMul n d 1000000)
    ∧ (∀ s p n d, Enhanced.cleanViews s = p ++ ['B'] → pyFloat? p = some (n, d) →
        Enhanced.parse_view_count_advanced s = truncMul n d 1000000000)
    ∧ (∀ s p n d, YtSearch.cleanViews s = p ++ ['M'] → pyFloat? p = some (n, d) →
        YtSearch.parse_view_count s = .ok (truncMul n d 1000000))
    ∧ (∀ s p n d, YtSearch.cleanViews s = p ++ ['K'] → pyFloat? p = some (n, d) →
        YtSearch.parse_view_count s = .ok (truncMul n d 1000))
    ∧ (∀ s p n d, YtSearch.cleanViews s = p ++ ['B'] → pyFloat? p = some (n, d) →
        YtSearch.parse_view_count s = .ok 0)
    ∧ (Enhanced.parse_view_count_advanced "1.2M".data = 1200000
       ∧ Enhanced.parse_view_count_advanced "950K".data = 950000
       ∧ Enhanced.parse_view_count_advanced "3,400 views".data = 3400
       ∧ Enhanced.parse_view_count_advanced "".data = 0
       ∧ Enhanced.parse_view_count_advanced "garbage".data = 0
       ∧ Enhanced.parse_view_count_advanced "1B".data = 1000000000
       ∧ YtSearch.parse_view_count "1.2M".data = .ok 1200000
       ∧ YtSearch.parse_view_count "950K".data = .ok 950000
       ∧ YtSearch.parse_view_count "3,400 views".data = .ok 3400
       ∧ YtSearch.parse_view_count "".data = .ok 0
       ∧ YtSearch.parse_view_count "garbage".data = .ok 0
       ∧ YtSearch.parse_view_count "1B".data = .ok 0
       ∧ truncMul 323 10 1000 = 32299
       ∧ Int.tdiv (323 * 1000) 10 = 32300) :=
  ⟨fun s p n d hclean hp =>
      enhanced_suffix_rule s p n d 'K' 1000 (Or.inl ⟨rfl, rfl⟩) hclean hp,
   fun s p n d hclean hp =>
      enhanced_suffix_rule s p n d 'M' 1000000 (Or.inr (Or.inl ⟨rfl, rfl⟩)) hclean hp,
   fun s p n d hclean hp =>
      enhanced_suffix_rule s p n d 'B' 1000000000 (Or.inr (Or.inr ⟨rfl, rfl⟩)) hclean hp,
   fun s p n d => (module_suffix_rule s p n d).1,
   fun s p n d => (module_suffix_rule s p n d).2.1,
   fun s p n d => (module_suffix_rule s p n d).2.2,
   by decide⟩

theorem claim_C4_witness :
    Enhanced.parse_view_count_advanced "3.5K".data = truncMul 35 10 1000
    ∧ truncMul 35 10 1000 = 3500
    ∧ YtSearch.parse_view_count "7B".data = .ok 0 :=
  ⟨claim_C4_suffix_rules.1 "3.5K".data "3.5".data 35 10 (by decide) (by decide),
   by decide,
   claim_C4_suffix_rules.2.2.2.2.2.1 "7B".data "7".data 7 1 (by decide) (by decide)⟩

-- sanity checks (spec section 8 reference equations)
example : Enhanced.parse_view_count_advanced "1.2M".data = 1200000 := by decide
example : Enhanced.parse_view_count_advanced "950K".data = 950000 := by decide
example : Enhanced.parse_view_count_advanced "3,400 views".data = 3400 := by decide
example : Enhanced.parse_view_count_advanced "".data = 0 := by decide
example : Enhanced.parse_view_count_advanced "garbage".data = 0 := by decide
example : Enhanced.parse_view_count_advanced "2.1M views".data = 2100000 := by decide
example : Enhanced.parse_view_count_advanced "-3".data = -3 := by decide
example : Enhanced.parse_view_count_advanced "1B".data = 1000000000 := by decide
example : YtSearch.parse_view_count "1.2M".data = .ok 1200000 := by decide
example : YtSearch.parse_view_count "1B".data = .ok 0 := by decide
example : YtSearch.parse_view_count "M".data = .error .valueError := by decide
example : Fixed.parse_view_count "850 views".data = .ok 850 := by decide
example : (Enhanced.parse_search_intent "full react course 2024".data).duration = some "long" := by decide
example : (Enhanced.parse_search_intent "full react course 2024".data).year = some "2024" := by decide
example : (Enhanced.parse_search_intent "short but full course".data).duration = some "short" := by decide
example : (Enhanced.parse_search_intent "best music 2024".data).sort = some "views" := by decide

-- end-to-end sanity on the fixtures
example : (Enhanced.search_youtube_advanced_extract sampleDoc 20).map (fun r => r.views)
    = [2100000, 850] := by decide
example : (Enhanced.search_youtube_advanced_extract sampleDoc 20).map (fun r => r.channel_verified)
    = [true, false] := by decide
example : (YtSearch.search_extract sampleDoc 20).map (fun r => r.views) = [2100000, 850] := by
  decide
example : (Enhanced.search_youtube_advanced_extract sampleDoc 1).length = 1 := by decide
example : (Enhanced.search_youtube_advanced_extract sampleDoc 0).length = 1 := by decide
example : (Enhanced.search_youtube_advanced_extract midFailDoc 20).isEmpty = true := by decide
example : (YtSearch.search_extract midFailDoc 20).length = 1 := by decide
example : (docVideos Enhanced.parse_video sampleDoc).map (fun l => l.length) = some 2 := by decide
